import Mathlib

/-!
# xcspp: experiment helper, moving-average filter and XCSR parameters

A shallow embedding of `simple_moving_average.hpp`, `xcsr_params.hpp` and
`experiment_helper.hpp`, and of the learner declared in `xcsr.hpp`, whose member
function bodies are not among the sources and follow the spec, followed by the
properties proved about them.

Conventions of the embedding:
* `std::size_t` / `std::uint64_t` values are natural numbers; every increment in
  the embedded code is guarded by a comparison with a bound of the same type, so
  no wrap-around can occur;
* `double` fields that are only initialised from decimal literals and compared are
  rationals holding the value of the literal;
* an access that is undefined behaviour in C++ (reading an indeterminate array
  element, indexing a `std::vector` out of range) is an explicit failure value.
* the filter is generic in its element type, as the class template is; where a
  property is evaluated at `double`, the values are those of `Binary64`, an exact
  integer model of the finite binary64 values with their rounding;
* a new-expression that can throw is given the free store it allocates from.
-/

namespace xcspp

/-! ## `simple_moving_average.hpp` -/

/-- The exceptions that leave the constructor of `UnrecursiveFilter`: the `std::invalid_argument`
it throws itself, and the `std::bad_array_new_length` and `std::bad_alloc` of the
new-expression `new T[m_order]`. -/
inductive FilterError where
  | invalidArgument (what : String)
  | badArrayNewLength
  | badAlloc
  deriving DecidableEq, Repr

/-- The free store as the new-expression `new T[m_order]` sees it: `elementSize` is `sizeof(T)`,
`maxArrayBytes` is the largest array size the implementation supports (at most `SIZE_MAX`), and
`grants bytes` tells whether the allocation function returns storage for that many bytes. -/
structure FreeStore where
  elementSize : Nat
  maxArrayBytes : Nat
  grants : Nat → Bool

/-- Whether `new T[count]` returns an array: its size is within the limit of the implementation
and the allocation function grants the storage. -/
def FreeStore.allocates (store : FreeStore) (count : Nat) : Bool :=
  decide (count * store.elementSize ≤ store.maxArrayBytes)
    && store.grants (count * store.elementSize)

/-- State of `UnrecursiveFilter<T>`. The ring buffer `new T[m_order]` is a list of
`m_order` cells; a cell that has not been written yet is `none`. -/
structure UnrecursiveFilter (T : Type) where
  m_order : Nat
  m_cursor : Nat
  m_valueCount : Nat
  m_pBuffer : List (Option T)
  deriving DecidableEq, Repr

/-- The constructor `UnrecursiveFilter(std::size_t order)`: the check of the order, then the
allocation `m_pBuffer = new T[m_order]`, which throws `std::bad_array_new_length` when the size of
the array exceeds the limit of the implementation and `std::bad_alloc` when the allocation
function does not grant the storage. -/
def UnrecursiveFilter.new {T : Type} (store : FreeStore) (order : Nat) :
    Except FilterError (UnrecursiveFilter T) :=
  if order = 0 then
    Except.error (FilterError.invalidArgument "The filter order must not be zero.")
  else if store.maxArrayBytes < order * store.elementSize then
    Except.error FilterError.badArrayNewLength
  else if store.grants (order * store.elementSize) = false then
    Except.error FilterError.badAlloc
  else
    Except.ok { m_order := order, m_cursor := 0, m_valueCount := 0,
                m_pBuffer := List.replicate order none }

/-- The accessor `order()`. -/
def UnrecursiveFilter.order {T : Type} (f : UnrecursiveFilter T) : Nat :=
  f.m_order

/-- The method `storeValue(T value)`. The result is `none` when the write
`m_pBuffer[m_cursor] = value` would fall outside the allocated buffer. -/
def UnrecursiveFilter.storeValue {T : Type} (f : UnrecursiveFilter T) (value : T) :
    Option (UnrecursiveFilter T) :=
  if f.m_cursor < f.m_pBuffer.length then
    some { f with
      m_pBuffer := f.m_pBuffer.set f.m_cursor (some value)
      m_valueCount := if f.m_valueCount < f.m_order then f.m_valueCount + 1 else f.m_valueCount
      m_cursor := if f.m_cursor + 1 ≥ f.m_order then 0 else f.m_cursor + 1 }
  else
    none

/-- The derived class `SimpleMovingAverage<T>` adds no data member. -/
abbrev SimpleMovingAverage (T : Type) := UnrecursiveFilter T

/-- The constructor `SimpleMovingAverage(std::size_t order)`, which only forwards to the base
class constructor. -/
def SimpleMovingAverage.new {T : Type} (store : FreeStore) (order : Nat) :
    Except FilterError (SimpleMovingAverage T) :=
  UnrecursiveFilter.new store order

/-- The loop `for (i = ...; i < m_valueCount; ++i) sum += m_pBuffer[i];` with `remaining`
iterations left, the loop variable at `i` and the running total `sum`. Reading a cell outside
the buffer or a cell never written gives `none`. -/
def SimpleMovingAverage.accumulate {T : Type} [Add T] (buf : List (Option T)) :
    Nat → Nat → T → Option T
  | 0, _, sum => some sum
  | remaining + 1, i, sum =>
    match buf[i]? with
    | some (some x) => SimpleMovingAverage.accumulate buf remaining (i + 1) (sum + x)
    | _ => none

/-- The call operator `T operator()(T value)` of `SimpleMovingAverage`. `divide sum count` stands
for the expression `sum / m_valueCount` of the element type. The result is the returned average
with the new filter state, or `none` when an access is out of range, reads an unwritten cell, or
the divisor is zero. -/
def SimpleMovingAverage.apply {T : Type} [Add T] (divide : T → Nat → T)
    (f : SimpleMovingAverage T) (value : T) : Option (T × SimpleMovingAverage T) :=
  match f.storeValue value with
  | none => none
  | some f1 =>
    match f1.m_pBuffer[0]? with
    | some (some first) =>
      match SimpleMovingAverage.accumulate f1.m_pBuffer (f1.m_valueCount - 1) 1 first with
      | some sum => if f1.m_valueCount = 0 then none else some (divide sum f1.m_valueCount, f1)
      | none => none
    | _ => none

/-- Feeds the inputs one by one to the call operator and collects the returned values. -/
def SimpleMovingAverage.feed {T : Type} [Add T] (divide : T → Nat → T) :
    SimpleMovingAverage T → List T → Option (List T × SimpleMovingAverage T)
  | f, [] => some ([], f)
  | f, x :: xs =>
    match SimpleMovingAverage.apply divide f x with
    | none => none
    | some (y, f1) =>
      match SimpleMovingAverage.feed divide f1 xs with
      | none => none
      | some (ys, f2) => some (y :: ys, f2)

/-- The value returned by the last call when a filter of the given order is constructed and the
inputs are fed to it one by one. -/
def SimpleMovingAverage.lastOutput {T : Type} [Add T] (divide : T → Nat → T)
    (store : FreeStore) (order : Nat) (inputs : List T) : Option T :=
  match (SimpleMovingAverage.new store order : Except FilterError (SimpleMovingAverage T)) with
  | Except.error _ => none
  | Except.ok f =>
    match SimpleMovingAverage.feed divide f inputs with
    | none => none
    | some (ys, _) => ys.getLast?

/-- The last `count` elements of a list of inputs. -/
def lastInputs {T : Type} (count : Nat) (inputs : List T) : List T :=
  inputs.drop (inputs.length - count)

/-- The average the call operator is expected to return after the given inputs: the sum of the last
`min k order` of them divided by `min k order`, where `k` is the number of inputs. -/
def expectedAverage {T : Type} [Add T] [Zero T] (divide : T → Nat → T) (order : Nat)
    (inputs : List T) : T :=
  divide (lastInputs (min inputs.length order) inputs).sum (min inputs.length order)

/-- The representation invariant of the ring buffer after the inputs `hist` have been stored:
rotating the buffer to the cursor lists the unwritten cells followed by the stored window,
oldest value first. -/
structure RingInv {T : Type} (n : Nat) (f : UnrecursiveFilter T) (hist : List T) : Prop where
  order : f.m_order = n
  len : f.m_pBuffer.length = n
  count : f.m_valueCount = min hist.length n
  cursor : f.m_cursor = hist.length % n
  window : f.m_pBuffer.rotate f.m_cursor =
    List.replicate (n - f.m_valueCount) none ++ (lastInputs f.m_valueCount hist).map some


/-- A sequence of calls of `storeValue`, one for each value of the list in turn. -/
def UnrecursiveFilter.storeValues {T : Type} :
    UnrecursiveFilter T → List T → Option (UnrecursiveFilter T)
  | f, [] => some f
  | f, x :: xs =>
    match f.storeValue x with
    | none => none
    | some f1 => UnrecursiveFilter.storeValues f1 xs

/-- The indices at which the call operator reads the buffer after it has stored its argument:
`m_pBuffer[0]`, then `m_pBuffer[i]` for `i` from 1 up to `m_valueCount` excluded. -/
def SimpleMovingAverage.readIndices {T : Type} (f : SimpleMovingAverage T) : List Nat :=
  0 :: List.range' 1 (f.m_valueCount - 1)

/-- The total the call operator computes over the cells it reads: it starts from the first cell
and adds every further cell on the right, `sum += m_pBuffer[i]`. -/
def sumLeftToRight {T : Type} [Add T] : List T → Option T
  | [] => none
  | first :: rest => some (rest.foldl (fun sum x => sum + x) first)

/-- The contents of the cells `0` to `min k order - 1` after the `k` inputs have been stored in a
filter of the given order: the last `min k order` inputs, the input number `t` (counted from 0)
in the cell `t mod order`. -/
def bufferWindow {T : Type} (order : Nat) (inputs : List T) : List T :=
  (lastInputs (min inputs.length order) inputs).rotate
    (min inputs.length order - inputs.length % order)

/-- The average the call operator returns after the given inputs: the cells it reads, summed from
the first cell on, divided by their number `min k order`. -/
def bufferOrderAverage {T : Type} [Add T] (divide : T → Nat → T) (order : Nat)
    (inputs : List T) : Option T :=
  (sumLeftToRight (bufferWindow order inputs)).map fun total =>
    divide total (min inputs.length order)

/-- A free store for elements of 8 bytes (`double`) on a machine whose `SIZE_MAX` is `2^64 - 1`
and whose allocation function grants requests of up to `2^30` bytes. -/
def exampleStore : FreeStore where
  elementSize := 8
  maxArrayBytes := 2 ^ 64 - 1
  grants := fun bytes => decide (bytes ≤ 2 ^ 30)

/-! ### The element type `double`

A finite value of the IEEE 754 binary64 format is an integer multiple of `2^(-1074)`. The model
holds that integer; sums and quotients are rounded to nearest, ties to even, to 53 significant
bits and no finer than one unit, which is the rounding of binary64 including its subnormal
range. Infinities and NaN are not modelled: the model agrees with `double` as long as no result
overflows. -/

/-- A finite `double`, of value `units · 2^(-1074)`. -/
structure Binary64 where
  units : Int
  deriving DecidableEq, Repr

/-- The number of low bits of `q` that do not fit in 53 significant bits, found by bisection on
the bits of the answer from `bit - 1` down to 0, starting from `shift`. -/
def Binary64.droppedBits (q : Nat) : Nat → Nat → Nat
  | 0, shift => shift
  | bit + 1, shift =>
    if q < 2 ^ (53 + shift + 2 ^ bit - 1) then Binary64.droppedBits q bit shift
    else Binary64.droppedBits q bit (shift + 2 ^ bit)

/-- Rounds the non-negative rational `q + r / d`, where `r < d`, to 53 significant bits and no
finer than one unit, to nearest with ties to even. -/
def Binary64.roundNearestEven (q r d : Nat) : Nat :=
  let shift := Binary64.droppedBits q 12 0
  let kept := q / 2 ^ shift
  let low := q % 2 ^ shift
  let twice := 2 * (low * d + r)
  let whole := 2 ^ shift * d
  (if twice > whole ∨ (twice = whole ∧ kept % 2 = 1) then kept + 1 else kept) * 2 ^ shift

/-- The `double` nearest to `m · 2^(-k)`, for `k` up to 1074. -/
def Binary64.ofDyadic (m : Int) (k : Nat) : Binary64 :=
  ⟨m.sign * (Binary64.roundNearestEven (m.natAbs * 2 ^ (1074 - k)) 0 1 : Nat)⟩

/-- The `double` nearest to an integer. -/
def Binary64.ofInt (i : Int) : Binary64 :=
  Binary64.ofDyadic i 0

/-- The sum `a + b` of two `double` values. -/
def Binary64.add (a b : Binary64) : Binary64 :=
  ⟨(a.units + b.units).sign * (Binary64.roundNearestEven (a.units + b.units).natAbs 0 1 : Nat)⟩

instance : Add Binary64 := ⟨Binary64.add⟩

instance : Zero Binary64 := ⟨⟨0⟩⟩

/-- The quotient `sum / m_valueCount` of a `double` by a `std::size_t`: the count is converted
to `double`, then the division is rounded. A zero count gives 0 here; the call operator never
divides by it. -/
def Binary64.divide (a : Binary64) (count : Nat) : Binary64 :=
  let divisor := Binary64.roundNearestEven (count * 2 ^ 1074) 0 1
  if divisor = 0 then ⟨0⟩
  else
    ⟨a.units.sign * (Binary64.roundNearestEven (a.units.natAbs * 2 ^ 1074 / divisor)
      (a.units.natAbs * 2 ^ 1074 % divisor) divisor : Nat)⟩

/-- Four `double` inputs whose sum depends on the order of the additions:
`1e16`, `1`, `-1e16`, `3`. -/
def roundingWindow : List Binary64 :=
  [Binary64.ofInt (10 ^ 16), Binary64.ofInt 1, Binary64.ofInt (-10 ^ 16), Binary64.ofInt 3]

/-! ## `xcsr_params.hpp` -/

/-- Modelled from the spec: the enumeration `XCSRRepr` is declared in `xcsr_repr.hpp`, which is
not among the sources; the spec lists the representations CSR, OBR and UBR, and
`xcsr_params.hpp` names the enumerator `kOBR`. -/
inductive XCSRRepr where
  | kCSR
  | kOBR
  | kUBR
  deriving DecidableEq, Repr

/-- The enumeration `XCSRParams::CrossoverMethod`. -/
inductive CrossoverMethod where
  | kUniformCrossover
  | kOnePointCrossover
  | kTwoPointCrossover
  deriving DecidableEq, Repr

/-- The struct `XCSRParams`; every field carries its default member initialiser. -/
structure XCSRParams where
  n : Nat := 10000
  beta : ℚ := 0.2
  alpha : ℚ := 0.1
  epsilonZero : ℚ := 10
  nu : ℚ := 5
  gamma : ℚ := 0.71
  thetaGA : Nat := 25
  chi : ℚ := 0.8
  crossoverMethod : CrossoverMethod := CrossoverMethod.kUniformCrossover
  mu : ℚ := 0.04
  thetaDel : Nat := 20
  delta : ℚ := 0.1
  thetaSub : Nat := 20
  tau : ℚ := 0.4
  initialPrediction : ℚ := 0.01
  initialEpsilon : ℚ := 0.01
  initialFitness : ℚ := 0.01
  exploreProbability : ℚ := 1.0
  thetaMna : Nat := 0
  doGASubsumption : Bool := true
  doActionSetSubsumption : Bool := true
  doActionMutation : Bool := true
  useMAM : Bool := true
  s0 : ℚ := 0.25
  m : ℚ := 0.1
  repr : XCSRRepr := XCSRRepr.kOBR
  minValue : ℚ := 0.0
  maxValue : ℚ := 1.0
  doRangeRestriction : Bool := true
  doCoveringRandomRangeTruncation : Bool := false

/-- A default-constructed `XCSRParams`. -/
def XCSRParams.default : XCSRParams := {}

/-- Modelled from the spec: the match-set code that reads `thetaMna` is not among the sources; the
spec says `θ_mna` defaults to the number of available actions when configured 0 (the comment on
the field says: use "0" to set automatically). -/
def XCSRParams.effectiveThetaMna (params : XCSRParams) (actionCount : Nat) : Nat :=
  if params.thetaMna = 0 then actionCount else params.thetaMna

/-- The two parent-selection schemes of the genetic algorithm. -/
inductive ParentSelection where
  | tournament
  | rouletteWheel
  deriving DecidableEq, Repr

/-- Modelled from the spec: the body of `GA::Run` is not among the sources; the spec selects
parents by tournament if `τ > 0` and by fitness-proportional roulette otherwise (the comment on
the field says: set "0" to use the roulette-wheel selection). -/
def XCSRParams.parentSelection (params : XCSRParams) : ParentSelection :=
  if 0 < params.tau then ParentSelection.tournament else ParentSelection.rouletteWheel

/-- The situation named by the comment on `doCoveringRandomRangeTruncation`, in which "the covering
operator can generate too many maximum-range intervals": `s_0` is larger than
`(max-value - min-value) / 2`. -/
def XCSRParams.coveringSpreadTooLarge (params : XCSRParams) : Bool :=
  decide ((params.maxValue - params.minValue) / 2 < params.s0)

/-! ## `experiment_helper.hpp`

The helper is generic in the learner and in the environment: `L` is the state of a learner,
`E` the state of an environment, `Sit`, `Act` and `Rew` the types of situations, actions and
rewards, `Par` the type of the learner constants. The summary sums and the log streams of the
class are output only (nothing read from them reaches a learner or an environment) and are left
out; every call made on a learner or on an environment is recorded in the field `calls`. -/

/-- Modelled from the spec: `experiment_settings.hpp` is not among the sources; these are the fields
of `ExperimentSettings` that the control flow of `ExperimentHelper` reads, with the types their
uses require. -/
structure ExperimentSettings where
  seedCount : Nat
  explorationCount : Nat
  exploitationCount : Nat
  updateInExploitation : Bool
  summaryInterval : Nat
  inputClassifierFilename : String
  useInputClassifierToResume : Bool
  deriving DecidableEq, Repr

/-- Modelled from the spec: the class of the learners driven by the helper is not among the sources;
its member functions are parameters, with the signatures `xcsr.hpp` declares. Each function maps
the state of the learner before the call to the returned value and the state after it. -/
structure Learner (L Sit Act Rew Par : Type) where
  construct : List Act → Par → L
  explore : L → Sit → Act × L
  exploit : L → Sit → Bool → Act × L
  reward : L → Rew → Bool → L
  loadPopulationCSV : L → String → Bool → L
  switchToCondensationMode : L → L

/-- Modelled from the spec: `ienvironment.hpp` is not among the sources; the spec gives the
environment contract `situation`, `available_actions`, `execute_action`, `is_end_of_problem`.
Every function that the iteration loop calls may change the state of the environment. -/
structure Environment (E Sit Act Rew : Type) where
  situation : E → Sit × E
  executeAction : E → Act → Rew × E
  isEndOfProblem : E → Bool × E
  availableActions : E → List Act

/-- Which of the two environment arrays a call goes to. -/
inductive Mode where
  | exploration
  | exploitation
  deriving DecidableEq, Repr

/-- A call made by the helper on a learner or on an environment, with its arguments and, where
the helper uses it, the returned value. -/
inductive Call (Sit Act Rew : Type) where
  | loadPopulationCSV (filename : String) (initClassifierVariables : Bool)
  | explore (situation : Sit) (action : Act)
  | exploit (situation : Sit) (update : Bool) (action : Act)
  | reward (value : Rew) (isEndOfProblem : Bool)
  | prediction
  | isCoveringPerformed
  | populationSize
  | switchToCondensationMode
  | situation (env : Mode) (result : Sit)
  | executeAction (env : Mode) (action : Act) (result : Rew)
  | isEndOfProblem (env : Mode) (result : Bool)
  | callback (env : Mode)
  deriving DecidableEq, Repr

/-- A recorded call together with the index of the learner and environments it was made on. -/
structure Event (Sit Act Rew : Type) where
  seed : Nat
  call : Call Sit Act Rew
  deriving DecidableEq, Repr

/-- The data members of `ExperimentHelper` that take part in the control flow, and the record of
the calls made so far. -/
structure ExperimentHelper (L E Sit Act Rew Par : Type) where
  m_settings : ExperimentSettings
  m_constants : Par
  m_experiments : List L
  m_explorationEnvironments : List E
  m_exploitationEnvironments : List E
  m_explorationCallback : Option (E → E)
  m_exploitationCallback : Option (E → E)
  m_iterationCount : Nat
  calls : List (Event Sit Act Rew)

/-- How a loop of the helper ended: normally, by exhausting the step budget of an episode that
has not reached the end of the problem, or by indexing a vector out of range. -/
inductive Status where
  | ok
  | outOfFuel
  | outOfRange
  deriving DecidableEq, Repr

section Helper

variable {L E Sit Act Rew Par : Type}

/-- The loop of `makeExperiments` with `remaining` iterations left. -/
def ExperimentHelper.makeExperimentsLoop (learner : Learner L Sit Act Rew Par)
    (availableActions : List Act) (constants : Par) : Nat → List L → List L
  | 0, experiments => experiments
  | remaining + 1, experiments =>
    ExperimentHelper.makeExperimentsLoop learner availableActions constants remaining
      (experiments ++ [learner.construct availableActions constants])

/-- The static member function `makeExperiments`. -/
def ExperimentHelper.makeExperiments (learner : Learner L Sit Act Rew Par)
    (settings : ExperimentSettings) (availableActions : List Act) (constants : Par) : List L :=
  ExperimentHelper.makeExperimentsLoop learner availableActions constants settings.seedCount []

/-- The constructor. `m_experiments` has no member initialiser, so it is the empty vector when the
body runs; the body calls `loadPopulationCSV` on each of its elements. -/
def ExperimentHelper.new (learner : Learner L Sit Act Rew Par) (settings : ExperimentSettings)
    (constants : Par) : ExperimentHelper L E Sit Act Rew Par :=
  let experiments : List L := []
  let load : Bool := !settings.inputClassifierFilename.isEmpty
  { m_settings := settings
    m_constants := constants
    m_experiments :=
      if load then
        experiments.map fun experiment =>
          learner.loadPopulationCSV experiment settings.inputClassifierFilename
            (!settings.useInputClassifierToResume)
      else experiments
    m_explorationEnvironments := []
    m_exploitationEnvironments := []
    m_explorationCallback := none
    m_exploitationCallback := none
    m_iterationCount := 0
    calls :=
      if load then
        (List.range experiments.length).map fun j =>
          { seed := j
            call := Call.loadPopulationCSV settings.inputClassifierFilename
              (!settings.useInputClassifierToResume) }
      else [] }

/-- The loop of `constructEnvironments` with `remaining` iterations left at index `i`; `make k` is
the environment built by the `k`-th evaluation of `std::make_unique<Environment>(args...)`. -/
def ExperimentHelper.constructLoop (make : Nat → E) : Nat → Nat → List E × List E → List E × List E
  | 0, _, environments => environments
  | remaining + 1, i, (exploration, exploitation) =>
    ExperimentHelper.constructLoop make remaining (i + 1)
      (exploration ++ [make (2 * i)], exploitation ++ [make (2 * i + 1)])

/-- The member function `constructEnvironments`. The result is `none` when
`m_explorationEnvironments.at(0)` throws. -/
def ExperimentHelper.constructEnvironments (learner : Learner L Sit Act Rew Par)
    (env : Environment E Sit Act Rew) (make : Nat → E) (h : ExperimentHelper L E Sit Act Rew Par) :
    Option (ExperimentHelper L E Sit Act Rew Par) :=
  let cleared := { h with m_explorationEnvironments := [], m_exploitationEnvironments := [] }
  if h.m_settings.seedCount = 0 then
    some cleared
  else
    let environments := ExperimentHelper.constructLoop make h.m_settings.seedCount 0 ([], [])
    match environments.1[0]? with
    | none => none
    | some first =>
      some { cleared with
        m_explorationEnvironments := environments.1
        m_exploitationEnvironments := environments.2
        m_experiments :=
          ExperimentHelper.makeExperiments learner h.m_settings (env.availableActions first)
            h.m_constants }

/-- A loop `for (std::size_t i = 0; i < n; ++i) body` with `remaining` iterations left at index
`i`; the loop is abandoned as soon as the body does not end normally. -/
def forLoop {σ : Type} (body : Nat → σ → Status × σ) : Nat → Nat → σ → Status × σ
  | 0, _, s => (Status.ok, s)
  | remaining + 1, i, s =>
    match body i s with
    | (Status.ok, s1) => forLoop body remaining (i + 1) s1
    | (status, s1) => (status, s1)

/-- Appends calls made on seed `j` to the record. -/
def ExperimentHelper.record (h : ExperimentHelper L E Sit Act Rew Par) (j : Nat)
    (made : List (Call Sit Act Rew)) : ExperimentHelper L E Sit Act Rew Par :=
  { h with calls := h.calls ++ made.map fun call => { seed := j, call := call } }

/-- One pass through the body of the `do ... while` loop of the exploitation phase for seed `j`.
The result is `none` when `m_experiments[j]` or `m_exploitationEnvironments[j]` is out of range,
and otherwise the value of `isEndOfProblem()` in the loop condition with the new state. -/
def ExperimentHelper.exploitationStep (learner : Learner L Sit Act Rew Par)
    (env : Environment E Sit Act Rew) (j : Nat) (h : ExperimentHelper L E Sit Act Rew Par) :
    Option (Bool × ExperimentHelper L E Sit Act Rew Par) :=
  match h.m_experiments[j]?, h.m_exploitationEnvironments[j]? with
  | some l0, some e0 =>
    let update := h.m_settings.updateInExploitation
    let (situation, e1) := env.situation e0
    let (action, l1) := learner.exploit l0 situation update
    let (reward, e2) := env.executeAction e1 action
    let chosen : List (Call Sit Act Rew) :=
      [Call.situation Mode.exploitation situation, Call.exploit situation update action,
        Call.executeAction Mode.exploitation action reward, Call.prediction,
        Call.isCoveringPerformed]
    let (l2, e3, fed) : L × E × List (Call Sit Act Rew) :=
      if update then
        let (isEnd, e3) := env.isEndOfProblem e2
        (learner.reward l1 reward isEnd, e3,
          [Call.isEndOfProblem Mode.exploitation isEnd, Call.reward reward isEnd])
      else (l1, e2, [])
    let (e4, called) : E × List (Call Sit Act Rew) :=
      match h.m_exploitationCallback with
      | some callback => (callback e3, [Call.callback Mode.exploitation])
      | none => (e3, [])
    let (stop, e5) := env.isEndOfProblem e4
    some (stop,
      ({ h with
          m_experiments := h.m_experiments.set j l2
          m_exploitationEnvironments := h.m_exploitationEnvironments.set j e5 }).record j
        (chosen ++ fed ++ [Call.prediction] ++ called
          ++ [Call.isEndOfProblem Mode.exploitation stop]))
  | _, _ => none

/-- The `do ... while (!isEndOfProblem())` loop of the exploitation phase for seed `j`, with a
budget of `fuel` passes. -/
def ExperimentHelper.exploitationEpisode (learner : Learner L Sit Act Rew Par)
    (env : Environment E Sit Act Rew) (j : Nat) :
    Nat → ExperimentHelper L E Sit Act Rew Par → Status × ExperimentHelper L E Sit Act Rew Par
  | 0, h => (Status.outOfFuel, h)
  | fuel + 1, h =>
    match ExperimentHelper.exploitationStep learner env j h with
    | none => (Status.outOfRange, h)
    | some (true, h1) => (Status.ok, h1)
    | some (false, h1) => ExperimentHelper.exploitationEpisode learner env j fuel h1

/-- One pass through the body of the `do ... while` loop of the exploration phase for seed `j`. -/
def ExperimentHelper.explorationStep (learner : Learner L Sit Act Rew Par)
    (env : Environment E Sit Act Rew) (j : Nat) (h : ExperimentHelper L E Sit Act Rew Par) :
    Option (Bool × ExperimentHelper L E Sit Act Rew Par) :=
  match h.m_experiments[j]?, h.m_explorationEnvironments[j]? with
  | some l0, some e0 =>
    let (situation, e1) := env.situation e0
    let (action, l1) := learner.explore l0 situation
    let (reward, e2) := env.executeAction e1 action
    let (isEnd, e3) := env.isEndOfProblem e2
    let l2 := learner.reward l1 reward isEnd
    let (e4, called) : E × List (Call Sit Act Rew) :=
      match h.m_explorationCallback with
      | some callback => (callback e3, [Call.callback Mode.exploration])
      | none => (e3, [])
    let (stop, e5) := env.isEndOfProblem e4
    some (stop,
      ({ h with
          m_experiments := h.m_experiments.set j l2
          m_explorationEnvironments := h.m_explorationEnvironments.set j e5 }).record j
        ([Call.situation Mode.exploration situation, Call.explore situation action,
            Call.executeAction Mode.exploration action reward,
            Call.isEndOfProblem Mode.exploration isEnd, Call.reward reward isEnd]
          ++ called ++ [Call.isEndOfProblem Mode.exploration stop]))
  | _, _ => none

/-- The `do ... while (!isEndOfProblem())` loop of the exploration phase for seed `j`, with a
budget of `fuel` passes. -/
def ExperimentHelper.explorationEpisode (learner : Learner L Sit Act Rew Par)
    (env : Environment E Sit Act Rew) (j : Nat) :
    Nat → ExperimentHelper L E Sit Act Rew Par → Status × ExperimentHelper L E Sit Act Rew Par
  | 0, h => (Status.outOfFuel, h)
  | fuel + 1, h =>
    match ExperimentHelper.explorationStep learner env j h with
    | none => (Status.outOfRange, h)
    | some (true, h1) => (Status.ok, h1)
    | some (false, h1) => ExperimentHelper.explorationEpisode learner env j fuel h1

/-- The exploitation block of one iteration: for every seed, `exploitationCount` episodes, each
followed by a reading of `populationSize()`, and one more reading after the last episode. -/
def ExperimentHelper.exploitationPhase (learner : Learner L Sit Act Rew Par)
    (env : Environment E Sit Act Rew) (fuel : Nat) (h : ExperimentHelper L E Sit Act Rew Par) :
    Status × ExperimentHelper L E Sit Act Rew Par :=
  if h.m_settings.exploitationCount > 0 then
    forLoop (fun j hj =>
      match forLoop (fun _ hk =>
          match ExperimentHelper.exploitationEpisode learner env j fuel hk with
          | (Status.ok, h1) => (Status.ok, h1.record j [Call.populationSize])
          | (status, h1) => (status, h1))
        h.m_settings.exploitationCount 0 hj with
      | (Status.ok, h2) => (Status.ok, h2.record j [Call.populationSize])
      | (status, h2) => (status, h2))
      h.m_settings.seedCount 0 h
  else (Status.ok, h)

/-- The exploration block of one iteration: for every seed, `explorationCount` episodes. -/
def ExperimentHelper.explorationPhase (learner : Learner L Sit Act Rew Par)
    (env : Environment E Sit Act Rew) (fuel : Nat) (h : ExperimentHelper L E Sit Act Rew Par) :
    Status × ExperimentHelper L E Sit Act Rew Par :=
  forLoop (fun j hj =>
    forLoop (fun _ hk => ExperimentHelper.explorationEpisode learner env j fuel hk)
      h.m_settings.explorationCount 0 hj)
    h.m_settings.seedCount 0 h

/-- The body of the outermost loop of `runIteration`. -/
def ExperimentHelper.iteration (learner : Learner L Sit Act Rew Par)
    (env : Environment E Sit Act Rew) (fuel : Nat) (h : ExperimentHelper L E Sit Act Rew Par) :
    Status × ExperimentHelper L E Sit Act Rew Par :=
  match ExperimentHelper.exploitationPhase learner env fuel h with
  | (Status.ok, h1) =>
    match ExperimentHelper.explorationPhase learner env fuel h1 with
    | (Status.ok, h2) => (Status.ok, { h2 with m_iterationCount := h2.m_iterationCount + 1 })
    | (status, h2) => (status, h2)
  | (status, h1) => (status, h1)

/-- The member function `runIteration(repeat)`; every `do ... while` loop may make at most `fuel`
passes. When the status is not `ok` the state is the one reached when the run was abandoned. -/
def ExperimentHelper.runIteration (learner : Learner L Sit Act Rew Par)
    (env : Environment E Sit Act Rew) (fuel : Nat) (repeatCount : Nat)
    (h : ExperimentHelper L E Sit Act Rew Par) : Status × ExperimentHelper L E Sit Act Rew Par :=
  forLoop (fun _ hi => ExperimentHelper.iteration learner env fuel hi) repeatCount 0 h

/-- The member function `switchToCondensationMode`. -/
def ExperimentHelper.switchToCondensationMode (learner : Learner L Sit Act Rew Par)
    (h : ExperimentHelper L E Sit Act Rew Par) : ExperimentHelper L E Sit Act Rew Par :=
  { h with
    m_experiments := h.m_experiments.map learner.switchToCondensationMode
    calls := h.calls ++ (List.range h.m_experiments.length).map fun j =>
      { seed := j, call := Call.switchToCondensationMode } }

/-- Whether a call is one of the three learner calls of the reinforcement protocol. -/
def Call.isProtocol : Call Sit Act Rew → Bool
  | Call.explore _ _ => true
  | Call.exploit _ _ _ => true
  | Call.reward _ _ => true
  | _ => false

/-- Whether a call is a learner call of the protocol or one of the two environment calls whose
results the protocol passes on (`executeAction` and `isEndOfProblem`). -/
def Call.isRelevant : Call Sit Act Rew → Bool
  | Call.executeAction _ _ _ => true
  | Call.isEndOfProblem _ _ => true
  | call => call.isProtocol

/-- The protocol calls made on learner `j`, in order. -/
def protocolCalls (j : Nat) (calls : List (Event Sit Act Rew)) : List (Call Sit Act Rew) :=
  (calls.filter fun event => decide (event.seed = j) && event.call.isProtocol).map Event.call

/-- The protocol calls made on learner `j` interleaved with the `executeAction` and
`isEndOfProblem` calls made on the two environments of seed `j`, in order. -/
def relevantCalls (j : Nat) (calls : List (Event Sit Act Rew)) : List (Call Sit Act Rew) :=
  (calls.filter fun event => decide (event.seed = j) && event.call.isRelevant).map Event.call

/-- One pass through a `do ... while` body as seen from a learner: the situation `s` it was given,
the action `a` it returned, the reward `r` the environment returned for `a`, the end-of-problem
flag `e` read for the call of `reward` and the flag `stop` read by the loop condition. -/
inductive Block (Sit Act Rew : Type) where
  | explore (s : Sit) (a : Act) (r : Rew) (e : Bool) (stop : Bool)
  | exploitUpdate (s : Sit) (a : Act) (r : Rew) (e : Bool) (stop : Bool)
  | exploitOnly (s : Sit) (a : Act) (r : Rew) (stop : Bool)

/-- The learner calls of a block. -/
def Block.calls : Block Sit Act Rew → List (Call Sit Act Rew)
  | Block.explore s a r e _ => [Call.explore s a, Call.reward r e]
  | Block.exploitUpdate s a r e _ => [Call.exploit s true a, Call.reward r e]
  | Block.exploitOnly s a _ _ => [Call.exploit s false a]

/-- The learner calls of a block interleaved with the environment calls that produced the reward
and the flags. -/
def Block.trace : Block Sit Act Rew → List (Call Sit Act Rew)
  | Block.explore s a r e stop =>
    [Call.explore s a, Call.executeAction Mode.exploration a r,
      Call.isEndOfProblem Mode.exploration e, Call.reward r e,
      Call.isEndOfProblem Mode.exploration stop]
  | Block.exploitUpdate s a r e stop =>
    [Call.exploit s true a, Call.executeAction Mode.exploitation a r,
      Call.isEndOfProblem Mode.exploitation e, Call.reward r e,
      Call.isEndOfProblem Mode.exploitation stop]
  | Block.exploitOnly s a r stop =>
    [Call.exploit s false a, Call.executeAction Mode.exploitation a r,
      Call.isEndOfProblem Mode.exploitation stop]

/-- The helper `h1` was reached from `h0` by making, on seed `j`, the calls of a sequence of
blocks and otherwise only calls outside the protocol. -/
def BlocksBetween (j : Nat) (h0 h1 : ExperimentHelper L E Sit Act Rew Par) : Prop :=
  ∃ blocks : List (Block Sit Act Rew),
    relevantCalls j h1.calls = relevantCalls j h0.calls ++ blocks.flatMap Block.trace ∧
    protocolCalls j h1.calls = protocolCalls j h0.calls ++ blocks.flatMap Block.calls

/-- Every vector indexed by `runIteration` has exactly `seedCount` elements. -/
def ExperimentHelper.Sized (h : ExperimentHelper L E Sit Act Rew Par) : Prop :=
  h.m_experiments.length = h.m_settings.seedCount ∧
    h.m_explorationEnvironments.length = h.m_settings.seedCount ∧
    h.m_exploitationEnvironments.length = h.m_settings.seedCount

end Helper

/-- A learner whose state is the list of the calls made on it so far; it always selects
action 0. -/
def recordingLearner : Learner (List (Call Unit Nat Nat)) Unit Nat Nat Unit where
  construct := fun _ _ => []
  explore := fun l s => (0, l ++ [Call.explore s 0])
  exploit := fun l s update => (0, l ++ [Call.exploit s update 0])
  reward := fun l value isEnd => l ++ [Call.reward value isEnd]
  loadPopulationCSV := fun l filename init => l ++ [Call.loadPopulationCSV filename init]
  switchToCondensationMode := fun l => l ++ [Call.switchToCondensationMode]

/-- An environment whose state is the number of actions executed so far; it pays 1000 for
action 0 and nothing otherwise, and every second action ends a problem. -/
def twoStepEnvironment : Environment Nat Unit Nat Nat where
  situation := fun e => ((), e)
  executeAction := fun e action => (if action = 0 then 1000 else 0, e + 1)
  isEndOfProblem := fun e => (e % 2 == 0, e)
  availableActions := fun _ => [0, 1]

/-- Settings that name a population file to load: one seed, one exploration episode and one
exploitation episode per iteration. -/
def settingsWithInputFile : ExperimentSettings where
  seedCount := 1
  explorationCount := 1
  exploitationCount := 1
  updateInExploitation := false
  summaryInterval := 0
  inputClassifierFilename := "population.csv"
  useInputClassifierToResume := false


/-! ## `xcsr.hpp`: the learner

The header declares the data members and the member functions of `XCSR`; their bodies, and the
headers of the population, of the classifiers and of the action sets, are not among the sources.
The state below carries the data members the header declares; the behaviour follows the spec
(sections 3 to 4.8 and 7). Real numbers are rationals. Whatever the spec leaves to the random
source, to interval arithmetic on conditions or to a real power is a field of `Engine`, and the
properties are proved for every engine. -/

/-- Modelled from the spec: the classifier record of section 3 (its header is not among the
sources). `key` is the identity of the macro-classifier, by which match sets and action sets refer
to it without owning it. -/
structure Classifier (Cond : Type) where
  key : Nat
  condition : Cond
  action : Int
  prediction : ℚ
  epsilon : ℚ
  fitness : ℚ
  experience : Nat
  timeStamp : Nat
  actionSetSize : ℚ
  numerosity : Nat

/-- Modelled from the spec: the operations the spec leaves to the per-learner random source
(`uniform`, `bernoulli`, `roulette`, `tournament`), to the representation of conditions
(`isMatch`, `cover`, `isMoreGeneral`, `contains`, `generality`, and `breed` for crossover and
mutation of sections 4.7 steps 2 to 4) and to real arithmetic (`power`). An index returned by a
draw is reduced modulo the number of candidates. -/
structure Engine (Cond Rnd : Type) where
  isMatch : Cond → List ℚ → Bool
  cover : XCSRParams → List ℚ → Rnd → Cond × Rnd
  isMoreGeneral : Cond → Cond → Bool
  contains : Cond → Cond → Bool
  generality : Cond → ℚ
  power : ℚ → ℚ → ℚ
  uniform : Nat → Rnd → Nat × Rnd
  bernoulli : ℚ → Rnd → Bool × Rnd
  roulette : List ℚ → Rnd → Nat × Rnd
  tournament : XCSRParams → List (Classifier Cond) → Rnd → Nat × Rnd
  breed : XCSRParams → List Int → List ℚ → Classifier Cond → Classifier Cond → Rnd →
    (Classifier Cond × Classifier Cond) × Rnd

/-- What a member function of the learner reports instead of returning normally. -/
inductive XCSRError where
  | invalidConfiguration
  | protocolMisuse
  | emptyMatchSet
  | doesNotReturn
  deriving DecidableEq, Repr

/-- The data members of `XCSR` as declared in `xcsr.hpp`. The population owns the classifiers; the
action sets hold keys. Two fields are not data members of the class: `pendingSituation` is the
situation of the state "Await-reward" of section 4.5 of the spec, and `nextKey` is the next unused
classifier key. -/
structure XCSR (Cond Rnd : Type) where
  m_random : Rnd
  m_params : XCSRParams
  m_population : List (Classifier Cond)
  m_actionSet : List Nat
  m_prevActionSet : List Nat
  m_availableActions : List Int
  m_timeStamp : Nat
  m_expectsReward : Bool
  m_prevReward : ℚ
  m_isPrevModeExplore : Bool
  m_prevSituation : List ℚ
  m_prediction : ℚ
  m_predictions : List (Int × ℚ)
  m_isCoveringPerformed : Bool
  pendingSituation : List ℚ
  nextKey : Nat

section Learner

variable {Cond Rnd : Type}

/-- The sum of the numerosities of a list of classifiers. -/
def numerosityOf (classifiers : List (Classifier Cond)) : Nat :=
  (classifiers.map fun c => c.numerosity).sum

/-- The member function `numerositySum()`. -/
def XCSR.numerositySum (xcsr : XCSR Cond Rnd) : Nat :=
  numerosityOf xcsr.m_population

/-- The member function `populationSize()`. -/
def XCSR.populationSize (xcsr : XCSR Cond Rnd) : Nat :=
  xcsr.m_population.length

/-- Modelled from the spec: the body of the constructor is not among the sources. Section 7: a
configuration with `β` outside `[0, 1]`, `minValue ≥ maxValue`, `N = 0` or an empty action set
fails at construction. A new learner is idle, with an empty population. -/
def XCSR.new (availableActions : List Int) (params : XCSRParams) (seed : Rnd) :
    Except XCSRError (XCSR Cond Rnd) :=
  if params.beta < 0 ∨ 1 < params.beta ∨ params.maxValue ≤ params.minValue ∨ params.n = 0
      ∨ availableActions = [] then
    Except.error XCSRError.invalidConfiguration
  else
    Except.ok
      { m_random := seed, m_params := params, m_population := [], m_actionSet := [],
        m_prevActionSet := [], m_availableActions := availableActions, m_timeStamp := 0,
        m_expectsReward := false, m_prevReward := 0, m_isPrevModeExplore := false,
        m_prevSituation := [], m_prediction := 0, m_predictions := [],
        m_isCoveringPerformed := false, pendingSituation := [], nextKey := 0 }

/-- Modelled from the spec: the body of `XCSR::switchToCondensationMode` is not among the sources.
Section 6: it sets `χ = 0` and `μ = 0`. -/
def XCSR.switchToCondensationMode (xcsr : XCSR Cond Rnd) : XCSR Cond Rnd :=
  { xcsr with m_params := { xcsr.m_params with chi := 0, mu := 0 } }

/-- Modelled from the spec: section 3, "insertion of a duplicate is absorbed by incrementing the
matching rule's numerosity"; otherwise the classifier joins the population. -/
def insertClassifier [DecidableEq Cond] (c : Classifier Cond) :
    List (Classifier Cond) → List (Classifier Cond)
  | [] => [c]
  | d :: rest =>
    if d.condition = c.condition ∧ d.action = c.action then
      { d with numerosity := d.numerosity + 1 } :: rest
    else d :: insertClassifier c rest

/-- Adds `amount` to the numerosity of the classifier with the given key. -/
def addNumerosity (key amount : Nat) : List (Classifier Cond) → List (Classifier Cond)
  | [] => []
  | d :: rest =>
    if d.key = key then { d with numerosity := d.numerosity + amount } :: rest
    else d :: addNumerosity key amount rest

/-- Modelled from the spec: section 4.6 step 3, "decrement its numerosity by 1, remove entirely if
it reaches 0", applied to the classifier at the given position. -/
def removeMicroClassifier : List (Classifier Cond) → Nat → List (Classifier Cond)
  | [], _ => []
  | d :: rest, 0 =>
    if d.numerosity - 1 = 0 then rest else { d with numerosity := d.numerosity - 1 } :: rest
  | d :: rest, i + 1 => d :: removeMicroClassifier rest i

/-- Modelled from the spec: the deletion vote of section 4.6 step 2, given the average fitness. -/
def deletionVote (params : XCSRParams) (averageFitness : ℚ) (c : Classifier Cond) : ℚ :=
  let vote := c.actionSetSize * c.numerosity
  if c.experience > params.thetaDel ∧ c.fitness / c.numerosity < params.delta * averageFitness then
    vote * averageFitness * c.numerosity / c.fitness
  else vote

/-- Modelled from the spec: one pass of the deletion loop of section 4.6: average fitness, votes,
roulette draw, removal of one micro-classifier. -/
def deleteOne (engine : Engine Cond Rnd) (params : XCSRParams)
    (state : List (Classifier Cond) × Rnd) : List (Classifier Cond) × Rnd :=
  let population := state.1
  let averageFitness : ℚ := (population.map fun c => c.fitness).sum / numerosityOf population
  let drawn := engine.roulette (population.map (deletionVote params averageFitness)) state.2
  (removeMicroClassifier population (drawn.1 % population.length), drawn.2)

/-- The loop "while Σ numerosity > N" of section 4.6 with at most `fuel` passes. -/
def enforceCapLoop (engine : Engine Cond Rnd) (params : XCSRParams) :
    Nat → List (Classifier Cond) × Rnd → List (Classifier Cond) × Rnd
  | 0, state => state
  | fuel + 1, state =>
    if numerosityOf state.1 > params.n then
      enforceCapLoop engine params fuel (deleteOne engine params state)
    else state

/-- Modelled from the spec: deletion of section 4.6, "while Σ numerosity > N". Every pass removes a
micro-classifier or an entry of the population, so the loop makes at most as many passes as there
are micro-classifiers and entries. -/
def enforceCap (engine : Engine Cond Rnd) (params : XCSRParams)
    (state : List (Classifier Cond) × Rnd) : List (Classifier Cond) × Rnd :=
  enforceCapLoop engine params (numerosityOf state.1 + state.1.length) state

/-- Modelled from the spec: the match set of section 4.3, the classifiers whose condition matches
the situation. -/
def matchSet (engine : Engine Cond Rnd) (population : List (Classifier Cond))
    (situation : List ℚ) : List (Classifier Cond) :=
  population.filter fun c => engine.isMatch c.condition situation

/-- The distinct actions advocated in a set of classifiers. -/
def actionsOf (classifiers : List (Classifier Cond)) : List Int :=
  (classifiers.map fun c => c.action).dedup

/-- The members of a set given by keys that are still in the population. -/
def membersOf (keys : List Nat) (population : List (Classifier Cond)) : List (Classifier Cond) :=
  population.filter fun c => keys.contains c.key

/-- Modelled from the spec: the covering loop of section 4.3 with at most `fuel` passes. The flag
tells whether the loop ended; it also ends when no action is left to choose from. -/
def XCSR.cover [DecidableEq Cond] (engine : Engine Cond Rnd) (situation : List ℚ) :
    Nat → XCSR Cond Rnd → Bool × XCSR Cond Rnd
  | 0, xcsr => (false, xcsr)
  | fuel + 1, xcsr =>
    let matching := matchSet engine xcsr.m_population situation
    let present := actionsOf matching
    let candidates := xcsr.m_availableActions.filter fun a => !present.contains a
    if present.length < xcsr.m_params.effectiveThetaMna xcsr.m_availableActions.length
        ∧ candidates ≠ [] then
      let covered := engine.cover xcsr.m_params situation xcsr.m_random
      let drawn := engine.uniform candidates.length covered.2
      let created : Classifier Cond :=
        { key := xcsr.nextKey
          condition := covered.1
          action := candidates.getD (drawn.1 % candidates.length) 0
          prediction := xcsr.m_params.initialPrediction
          epsilon := xcsr.m_params.initialEpsilon
          fitness := xcsr.m_params.initialFitness
          experience := 0
          timeStamp := xcsr.m_timeStamp
          actionSetSize := numerosityOf matching + 1
          numerosity := 1 }
      let inserted := insertClassifier created xcsr.m_population
      let capped :=
        if numerosityOf inserted > xcsr.m_params.n then
          enforceCap engine xcsr.m_params (inserted, drawn.2)
        else (inserted, drawn.2)
      XCSR.cover engine situation fuel
        { xcsr with
          m_population := capped.1
          m_random := capped.2
          m_isCoveringPerformed := true
          nextKey := xcsr.nextKey + 1 }
    else (true, xcsr)

/-- Modelled from the spec: the prediction array of section 4.4, `P(a) = Σ p·F / Σ F` over the
classifiers of the match set that advocate `a`; by section 7 a zero denominator falls back to
equal weighting. -/
def predictionArray (matching : List (Classifier Cond)) : List (Int × ℚ) :=
  (actionsOf matching).map fun a =>
    let advocates := matching.filter fun c => c.action = a
    let fitnessSum : ℚ := (advocates.map fun c => c.fitness).sum
    (a, if fitnessSum = 0 then (advocates.map fun c => c.prediction).sum / advocates.length
        else (advocates.map fun c => c.prediction * c.fitness).sum / fitnessSum)

/-- Modelled from the spec: section 4.4, the action of maximal prediction, ties broken by the
lowest action index. -/
def bestAction : List (Int × ℚ) → Option (Int × ℚ)
  | [] => none
  | (a, p) :: rest =>
    match bestAction rest with
    | none => some (a, p)
    | some (b, q) => if q < p ∨ (q = p ∧ a < b) then some (a, p) else some (b, q)

/-- The value `max_a P(a)` of a prediction array (0 for an empty array). -/
def maxPrediction (predictions : List (Int × ℚ)) : ℚ :=
  match bestAction predictions with
  | none => 0
  | some (_, p) => p

/-- Modelled from the spec: the update of one classifier of section 4.2 steps 1 to 3, for the
reward target `target` and the numerosity sum `setSize` of the action set; the error is updated
from the prediction before its own update. -/
def updateClassifier (params : XCSRParams) (target setSize : ℚ) (c : Classifier Cond) :
    Classifier Cond :=
  let experience := c.experience + 1
  let rate : ℚ :=
    if params.useMAM ∧ (experience : ℚ) < 1 / params.beta then 1 / experience else params.beta
  { c with
    experience := experience
    prediction := c.prediction + rate * (target - c.prediction)
    epsilon := c.epsilon + rate * (|target - c.prediction| - c.epsilon)
    actionSetSize := c.actionSetSize + rate * (setSize - c.actionSetSize) }

/-- Modelled from the spec: the accuracy `κ` of section 4.2. -/
def accuracy (engine : Engine Cond Rnd) (params : XCSRParams) (c : Classifier Cond) : ℚ :=
  if c.epsilon < params.epsilonZero then 1
  else params.alpha * engine.power (c.epsilon / params.epsilonZero) (-params.nu)

/-- Modelled from the spec: the fitness update of section 4.2 for one member of the action set,
given the sum of `κ·n` and the numerosity sum of the set (for the equal weighting of section 7). -/
def updateFitness (engine : Engine Cond Rnd) (params : XCSRParams) (accuracySum setSize : ℚ)
    (c : Classifier Cond) : Classifier Cond :=
  let relative : ℚ :=
    if accuracySum = 0 then c.numerosity / setSize
    else accuracy engine params c * c.numerosity / accuracySum
  { c with fitness := c.fitness + params.beta * (relative - c.fitness) }

/-- The first classifier of maximal generality in a list. -/
def mostGeneral (engine : Engine Cond Rnd) : List (Classifier Cond) → Option (Classifier Cond)
  | [] => none
  | c :: rest =>
    match mostGeneral engine rest with
    | none => some c
    | some d =>
      if engine.generality c.condition < engine.generality d.condition then some d else some c

/-- Whether action-set subsumption removes `c` in favour of `subsumer`: `c` is another member of
the set, has the same action, and its intervals are contained in those of the subsumer. -/
def isAbsorbed (engine : Engine Cond Rnd) (keys : List Nat) (subsumer c : Classifier Cond) :
    Bool :=
  keys.contains c.key && decide (c.key ≠ subsumer.key) && decide (c.action = subsumer.action)
    && engine.contains subsumer.condition c.condition

/-- Modelled from the spec: action-set subsumption of section 4.8. The most general member that
is accurate and experienced takes over the numerosity of every other member it subsumes, and
those members leave the population. -/
def actionSetSubsumption (engine : Engine Cond Rnd) (params : XCSRParams) (keys : List Nat)
    (population : List (Classifier Cond)) : List (Classifier Cond) :=
  let qualified := (membersOf keys population).filter fun c =>
    decide (c.epsilon < params.epsilonZero) && decide (c.experience > params.thetaSub)
  match mostGeneral engine qualified with
  | none => population
  | some subsumer =>
    addNumerosity subsumer.key
      (numerosityOf (population.filter fun c => isAbsorbed engine keys subsumer c))
      (population.filter fun c => !isAbsorbed engine keys subsumer c)

/-- Modelled from the spec: the update of an action set (sections 4.2 and 4.8) with a reward
target: statistics of every member, then fitness across the set, then action-set subsumption if
it is switched on. -/
def updateSet (engine : Engine Cond Rnd) (params : XCSRParams) (keys : List Nat) (target : ℚ)
    (population : List (Classifier Cond)) : List (Classifier Cond) :=
  let setSize : ℚ := numerosityOf (membersOf keys population)
  let updated := population.map fun c =>
    if keys.contains c.key then updateClassifier params target setSize c else c
  let accuracySum : ℚ :=
    ((membersOf keys updated).map fun c => accuracy engine params c * c.numerosity).sum
  let weighted := updated.map fun c =>
    if keys.contains c.key then updateFitness engine params accuracySum setSize c else c
  if params.doActionSetSubsumption then actionSetSubsumption engine params keys weighted
  else weighted

/-- Modelled from the spec: the subsumption test of section 4.1, "A subsumes B". -/
def subsumes (engine : Engine Cond Rnd) (params : XCSRParams) (a b : Classifier Cond) : Bool :=
  decide (a.action = b.action) && engine.isMoreGeneral a.condition b.condition
    && decide (a.experience > params.thetaSub) && decide (a.epsilon < params.epsilonZero)

/-- Modelled from the spec: section 4.7 step 5 for one child. -/
def insertOffspring [DecidableEq Cond] (engine : Engine Cond Rnd) (params : XCSRParams)
    (parent1 parent2 child : Classifier Cond) (population : List (Classifier Cond)) :
    List (Classifier Cond) :=
  if params.doGASubsumption ∧ subsumes engine params parent1 child then
    addNumerosity parent1.key 1 population
  else if params.doGASubsumption ∧ subsumes engine params parent2 child then
    addNumerosity parent2.key 1 population
  else insertClassifier child population

/-- Modelled from the spec: section 4.7 step 1, the draw of one parent from the set, by tournament
if `τ > 0` and by fitness-proportional roulette otherwise. -/
def selectParent (engine : Engine Cond Rnd) (params : XCSRParams)
    (members : List (Classifier Cond)) (random : Rnd) : Option (Classifier Cond) × Rnd :=
  let drawn : Nat × Rnd :=
    match params.parentSelection with
    | ParentSelection.tournament => engine.tournament params members random
    | ParentSelection.rouletteWheel => engine.roulette (members.map fun (c : Classifier Cond) => c.fitness) random
  (members[drawn.1 % members.length]?, drawn.2)

/-- Modelled from the spec: the genetic algorithm of section 4.7 in the set given by `keys`:
two parents, two children with experience 0 and numerosity 1, insertion of each child, then the
population cap. -/
def XCSR.runGA [DecidableEq Cond] (engine : Engine Cond Rnd) (keys : List Nat)
    (situation : List ℚ) (xcsr : XCSR Cond Rnd) : XCSR Cond Rnd :=
  let members := membersOf keys xcsr.m_population
  let first := selectParent engine xcsr.m_params members xcsr.m_random
  let second := selectParent engine xcsr.m_params members first.2
  match first.1, second.1 with
  | some parent1, some parent2 =>
    let bred :=
      engine.breed xcsr.m_params xcsr.m_availableActions situation parent1 parent2 second.2
    let child1 : Classifier Cond :=
      { bred.1.1 with
        key := xcsr.nextKey, experience := 0, numerosity := 1, timeStamp := xcsr.m_timeStamp }
    let child2 : Classifier Cond :=
      { bred.1.2 with
        key := xcsr.nextKey + 1, experience := 0, numerosity := 1, timeStamp := xcsr.m_timeStamp }
    let inserted :=
      insertOffspring engine xcsr.m_params parent1 parent2 child2
        (insertOffspring engine xcsr.m_params parent1 parent2 child1 xcsr.m_population)
    let capped := enforceCap engine xcsr.m_params (inserted, bred.2)
    { xcsr with m_population := capped.1, m_random := capped.2, nextKey := xcsr.nextKey + 2 }
  | _, _ => xcsr

/-- Modelled from the spec: "possibly GA" of section 4.5. The genetic algorithm runs in the set
when the numerosity-weighted average time stamp of its members is older than the current time by
at least `θ_GA`; the members are then stamped with the current time. An empty set has no average
and is left alone. -/
def XCSR.possiblyGA [DecidableEq Cond] (engine : Engine Cond Rnd) (keys : List Nat)
    (situation : List ℚ) (xcsr : XCSR Cond Rnd) : XCSR Cond Rnd :=
  let members := membersOf keys xcsr.m_population
  let stampSum : ℚ := (members.map fun c => (c.timeStamp : ℚ) * c.numerosity).sum
  if numerosityOf members ≠ 0
      ∧ (xcsr.m_params.thetaGA : ℚ) ≤ xcsr.m_timeStamp - stampSum / numerosityOf members then
    XCSR.runGA engine keys situation
      { xcsr with
        m_population := xcsr.m_population.map fun c =>
          if keys.contains c.key then { c with timeStamp := xcsr.m_timeStamp } else c }
  else xcsr

/-- Modelled from the spec: the selection step shared by `explore` and `exploit` (sections 4.3 to
4.5): covering, prediction array, choice of the action, at random among the actions of the match
set with probability `exploreProbability` when exploring and of maximal prediction otherwise.
With `update` the action set is formed and the learner awaits a reward; without it only the
prediction is produced. -/
def XCSR.select [DecidableEq Cond] (engine : Engine Cond Rnd) (exploring update : Bool)
    (fuel : Nat) (xcsr : XCSR Cond Rnd) (situation : List ℚ) :
    Except XCSRError Int × XCSR Cond Rnd :=
  let covered := XCSR.cover engine situation fuel { xcsr with m_isCoveringPerformed := false }
  if covered.1 = false then (Except.error XCSRError.doesNotReturn, covered.2)
  else
    let matching := matchSet engine covered.2.m_population situation
    let predictions := predictionArray matching
    let coin :=
      if exploring then engine.bernoulli covered.2.m_params.exploreProbability covered.2.m_random
      else (false, covered.2.m_random)
    let drawn := if coin.1 then engine.uniform predictions.length coin.2 else (0, coin.2)
    let choice :=
      if coin.1 then predictions[drawn.1 % predictions.length]? else bestAction predictions
    match choice with
    | none => (Except.error XCSRError.emptyMatchSet, { covered.2 with m_random := drawn.2 })
    | some (action, prediction) =>
      let decided :=
        { covered.2 with
          m_random := drawn.2, m_prediction := prediction, m_predictions := predictions }
      if update then
        (Except.ok action,
          { decided with
            m_actionSet := (matching.filter fun c => c.action = action).map fun c => c.key
            m_expectsReward := true
            m_isPrevModeExplore := exploring
            pendingSituation := situation })
      else (Except.ok action, decided)

/-- Modelled from the spec: `explore(σ)`; the body is not among the sources. `fuel` bounds the
passes of the covering loop. The result is what the call reports and the state it leaves. -/
def XCSR.explore [DecidableEq Cond] (engine : Engine Cond Rnd) (fuel : Nat)
    (xcsr : XCSR Cond Rnd) (situation : List ℚ) : Except XCSRError Int × XCSR Cond Rnd :=
  XCSR.select engine true true fuel xcsr situation

/-- Modelled from the spec: `exploit(σ, update)`; the body is not among the sources. With
`update = true` it "behaves exactly as `explore()` with deterministic action choice"; with
`update = false` "the cycle still produces a prediction but no reward feedback is expected". -/
def XCSR.exploit [DecidableEq Cond] (engine : Engine Cond Rnd) (fuel : Nat)
    (xcsr : XCSR Cond Rnd) (situation : List ℚ) (update : Bool) :
    Except XCSRError Int × XCSR Cond Rnd :=
  XCSR.select engine false update fuel xcsr situation

/-- Modelled from the spec: `reward(r, e)`; the body is not among the sources. Section 7: without
a pending action selection the misuse is reported and the state is unchanged. Section 4.5: the
previous action set, if present, is updated with `r_prev + γ·max P(a)`; at the end of a problem
the action set is updated with `r`, possibly evolved, and the previous action set is cleared;
otherwise the previous action set is possibly evolved, the action set becomes the previous one
and `r` is retained. The learner is idle afterwards; the clock advances by one (the spec does
not say when the clock advances). -/
def XCSR.reward [DecidableEq Cond] (engine : Engine Cond Rnd) (xcsr : XCSR Cond Rnd) (value : ℚ)
    (isEndOfProblem : Bool) : Except XCSRError Unit × XCSR Cond Rnd :=
  if xcsr.m_expectsReward = false then (Except.error XCSRError.protocolMisuse, xcsr)
  else
    let hasPrevious : Bool := !xcsr.m_prevActionSet.isEmpty
    let credited :=
      if hasPrevious then
        { xcsr with
          m_population :=
            updateSet engine xcsr.m_params xcsr.m_prevActionSet
              (xcsr.m_prevReward + xcsr.m_params.gamma * maxPrediction xcsr.m_predictions)
              xcsr.m_population }
      else xcsr
    let settled :=
      if isEndOfProblem then
        let updated :=
          { credited with
            m_population :=
              updateSet engine credited.m_params credited.m_actionSet value
                credited.m_population }
        { XCSR.possiblyGA engine updated.m_actionSet updated.pendingSituation updated with
          m_prevActionSet := [] }
      else
        let evolved :=
          if hasPrevious then
            XCSR.possiblyGA engine credited.m_prevActionSet credited.m_prevSituation credited
          else credited
        { evolved with
          m_prevActionSet := evolved.m_actionSet
          m_prevReward := value
          m_prevSituation := evolved.pendingSituation }
    (Except.ok (), { settled with m_expectsReward := false, m_timeStamp := settled.m_timeStamp + 1 })

/-- A call of one of the three member functions of the reinforcement protocol. -/
inductive Request where
  | explore (situation : List ℚ)
  | exploit (situation : List ℚ) (update : Bool)
  | reward (value : ℚ) (isEndOfProblem : Bool)

/-- The state a learner is left in by one call. -/
def XCSR.call [DecidableEq Cond] (engine : Engine Cond Rnd) (fuel : Nat) (xcsr : XCSR Cond Rnd) :
    Request → XCSR Cond Rnd
  | Request.explore situation => (XCSR.explore engine fuel xcsr situation).2
  | Request.exploit situation update => (XCSR.exploit engine fuel xcsr situation update).2
  | Request.reward value isEndOfProblem => (XCSR.reward engine xcsr value isEndOfProblem).2

/-- The state a learner is left in by a sequence of calls. -/
def XCSR.calls [DecidableEq Cond] (engine : Engine Cond Rnd) (fuel : Nat) :
    XCSR Cond Rnd → List Request → XCSR Cond Rnd
  | xcsr, [] => xcsr
  | xcsr, request :: rest => XCSR.calls engine fuel (XCSR.call engine fuel xcsr request) rest

end Learner

/-- An engine for conditions that carry no information: every condition matches every situation
and contains every other one, offspring are copies of the parents, the power function is
constantly one; the random source is a counter, every draw returns it and advances it, and
the coin always falls on the random choice. -/
def counterEngine : Engine Unit Nat where
  isMatch := fun _ _ => true
  cover := fun _ _ random => ((), random + 1)
  isMoreGeneral := fun _ _ => false
  contains := fun _ _ => true
  generality := fun _ => 0
  power := fun _ _ => 1
  uniform := fun _ random => (random, random + 1)
  bernoulli := fun _ random => (true, random + 1)
  roulette := fun _ random => (random, random + 1)
  tournament := fun _ _ random => (random, random + 1)
  breed := fun _ _ _ parent1 parent2 random => ((parent1, parent2), random + 1)

/-- An idle learner with the default parameters, the actions 0 and 1 and an empty population. -/
def idleLearner : XCSR Unit Nat where
  m_random := 0
  m_params := XCSRParams.default
  m_population := []
  m_actionSet := []
  m_prevActionSet := []
  m_availableActions := [0, 1]
  m_timeStamp := 0
  m_expectsReward := false
  m_prevReward := 0
  m_isPrevModeExplore := false
  m_prevSituation := []
  m_prediction := 0
  m_predictions := []
  m_isCoveringPerformed := false
  pendingSituation := []
  nextKey := 0

/-- A learner interface over `XCSR` states in which only `switchToCondensationMode` acts; every
other call leaves the learner as it is and selects action 0. -/
def condensationOnlyLearner : Learner (XCSR Unit Nat) Unit Int ℚ Unit where
  construct := fun _ _ => idleLearner
  explore := fun l _ => (0, l)
  exploit := fun l _ _ => (0, l)
  reward := fun l _ _ => l
  loadPopulationCSV := fun l _ _ => l
  switchToCondensationMode := XCSR.switchToCondensationMode

/-- The learner still has the parameters `params` and its numerosity sum is within their cap. -/
def XCSR.WithinCap {Cond Rnd : Type} (params : XCSRParams) (xcsr : XCSR Cond Rnd) : Prop :=
  xcsr.m_params = params ∧ xcsr.numerositySum ≤ params.n

/-! # Properties -/

/-! ## Properties of the moving-average filter -/

section MovingAverage

variable {T : Type}

theorem succ_mod_cases (len n : Nat) (hn : 0 < n) :
    (len + 1) % n = if len % n + 1 ≥ n then 0 else len % n + 1 := by
  have hlt : len % n < n := Nat.mod_lt _ hn
  have hdiv : n * (len / n) + len % n = len := Nat.div_add_mod len n
  split
  · next h =>
    have h1 : len % n + 1 = n := by omega
    have h2 : len + 1 = n * (len / n + 1) := by
      rw [Nat.mul_add, Nat.mul_one]; omega
    rw [h2]; exact Nat.mul_mod_right _ _
  · next h =>
    have h2 : len + 1 = (len % n + 1) + n * (len / n) := by omega
    rw [h2, Nat.add_mul_mod_self_left]
    exact Nat.mod_eq_of_lt (by omega)

theorem rotate_set_succ (buf : List (Option T)) (c : Nat) (hc : c < buf.length) (y : Option T) :
    (buf.set c y).rotate (c + 1) = (buf.rotate c).tail ++ [y] := by
  have hset : buf.set c y = (buf.take c ++ [y]) ++ buf.drop (c + 1) := by
    rw [List.set_eq_take_append_cons_drop, if_pos hc]; simp
  have hlen : (buf.take c ++ [y]).length = c + 1 := by
    simp [List.length_take, Nat.min_eq_left (Nat.le_of_lt hc)]
  have hrot : buf.rotate c = buf[c] :: (buf.drop (c + 1) ++ buf.take c) := by
    rw [List.rotate_eq_drop_append_take (Nat.le_of_lt hc), List.drop_eq_getElem_cons hc]
    rfl
  have hswap := List.rotate_append_length_eq (buf.take c ++ [y]) (buf.drop (c + 1))
  rw [hlen] at hswap
  rw [hset, hswap, hrot]
  simp

theorem ringInv_new (store : FreeStore) (n : Nat) (hn : 0 < n)
    (halloc : store.allocates n = true) :
    ∃ f : UnrecursiveFilter T, UnrecursiveFilter.new store n = Except.ok f ∧ RingInv n f [] := by
  unfold FreeStore.allocates at halloc
  simp only [Bool.and_eq_true, decide_eq_true_eq] at halloc
  refine ⟨{ m_order := n, m_cursor := 0, m_valueCount := 0, m_pBuffer := List.replicate n none },
    by simp [UnrecursiveFilter.new, Nat.pos_iff_ne_zero.mp hn, Nat.not_lt.mpr halloc.1, halloc.2],
    ?_⟩
  constructor <;> simp [lastInputs]

theorem lastInputs_snoc_of_lt (hist : List T) (x : T) (n : Nat) (h : hist.length < n) :
    lastInputs (min (hist.length + 1) n) (hist ++ [x]) = lastInputs (min hist.length n) hist ++ [x] := by
  simp [lastInputs, Nat.min_eq_left (Nat.le_of_lt h), Nat.min_eq_left (Nat.succ_le_of_lt h)]

theorem lastInputs_snoc_of_le (hist : List T) (x : T) (n : Nat) (hn : 0 < n)
    (h : n ≤ hist.length) :
    lastInputs (min (hist.length + 1) n) (hist ++ [x])
      = (lastInputs (min hist.length n) hist).tail ++ [x] := by
  have h1 : min (hist.length + 1) n = n := Nat.min_eq_right (by omega)
  have h2 : min hist.length n = n := Nat.min_eq_right h
  rw [h1, h2]
  unfold lastInputs
  have e : (hist ++ [x]).length - n = hist.length - n + 1 := by
    rw [List.length_append, List.length_singleton]; omega
  have hle : hist.length - n + 1 ≤ hist.length := by omega
  rw [List.tail_drop, e, List.drop_append_of_le_length hle]

theorem ringInv_storeValue (n : Nat) (hn : 0 < n) (f : UnrecursiveFilter T) (hist : List T)
    (x : T) (inv : RingInv n f hist) :
    ∃ f1, f.storeValue x = some f1 ∧ RingInv n f1 (hist ++ [x]) := by
  obtain ⟨ho, hl, hc, hcur, hw⟩ := inv
  have hlt : f.m_cursor < f.m_pBuffer.length := by
    rw [hl, hcur]; exact Nat.mod_lt _ hn
  have hcur1 : (if f.m_cursor + 1 ≥ f.m_order then 0 else f.m_cursor + 1)
      = (hist.length + 1) % n := by
    rw [succ_mod_cases _ _ hn, ho, hcur]
  have hcnt1 : (if f.m_valueCount < f.m_order then f.m_valueCount + 1 else f.m_valueCount)
      = min (hist.length + 1) n := by
    rw [ho, hc]; split <;> omega
  have hlen2 : (f.m_pBuffer.set f.m_cursor (some x)).length = n := by simp [hl]
  have hrot : (f.m_pBuffer.set f.m_cursor (some x)).rotate ((hist.length + 1) % n)
      = (f.m_pBuffer.rotate f.m_cursor).tail ++ [some x] := by
    rw [← rotate_set_succ _ _ hlt, ← List.rotate_mod _ (f.m_cursor + 1), hlen2, hcur]
    congr 1
    rw [Nat.add_mod hist.length 1 n, Nat.add_mod (hist.length % n) 1 n, Nat.mod_mod]
  refine ⟨{ f with
      m_pBuffer := f.m_pBuffer.set f.m_cursor (some x)
      m_valueCount := if f.m_valueCount < f.m_order then f.m_valueCount + 1 else f.m_valueCount
      m_cursor := if f.m_cursor + 1 ≥ f.m_order then 0 else f.m_cursor + 1 },
    by simp [UnrecursiveFilter.storeValue, hlt], ?_⟩
  refine ⟨ho, hlen2, ?_, ?_, ?_⟩
  · simpa using hcnt1
  · simpa using hcur1
  · show (f.m_pBuffer.set f.m_cursor (some x)).rotate
        (if f.m_cursor + 1 ≥ f.m_order then 0 else f.m_cursor + 1) = _
    show _ = List.replicate (n - (if f.m_valueCount < f.m_order then f.m_valueCount + 1 else f.m_valueCount)) none ++ List.map some (lastInputs (if f.m_valueCount < f.m_order then f.m_valueCount + 1 else f.m_valueCount) (hist ++ [x]))
    rw [hcur1, hcnt1, hrot, hw, hc]
    by_cases hfull : hist.length < n
    · rw [lastInputs_snoc_of_lt _ _ _ hfull]
      have e1 : n - min hist.length n = (n - min (hist.length + 1) n) + 1 := by
        rw [Nat.min_eq_left (Nat.le_of_lt hfull), Nat.min_eq_left (Nat.succ_le_of_lt hfull)]
        omega
      rw [e1, List.replicate_succ]
      simp
    · have hle : n ≤ hist.length := Nat.le_of_not_lt hfull
      rw [lastInputs_snoc_of_le _ _ _ hn hle]
      have e1 : n - min hist.length n = 0 := by rw [Nat.min_eq_right hle]; omega
      have e2 : n - min (hist.length + 1) n = 0 := by
        rw [Nat.min_eq_right (by omega)]; omega
      rw [e1, e2]
      simp [List.map_tail]

theorem accumulate_eq [AddCommMonoid T] (buf : List (Option T)) (zs : List T)
    (rest : List (Option T)) (i : Nat) (acc : T) (h : buf.drop i = zs.map some ++ rest) :
    SimpleMovingAverage.accumulate buf zs.length i acc = some (acc + zs.sum) := by
  induction zs generalizing i acc with
  | nil => simp [SimpleMovingAverage.accumulate]
  | cons z zs ih =>
    have hget : buf[i]? = some (some z) := by
      have := List.getElem?_drop (L := buf) (i := i) (j := 0)
      rw [h] at this
      simpa using this.symm
    have hdrop : buf.drop (i + 1) = zs.map some ++ rest := by
      rw [← List.tail_drop, h]; rfl
    simp only [List.length_cons, SimpleMovingAverage.accumulate, hget]
    rw [ih (i + 1) (acc + z) hdrop, List.sum_cons, add_assoc]

theorem ringInv_prefix (n : Nat) (hn : 0 < n) (f : UnrecursiveFilter T) (hist : List T)
    (inv : RingInv n f hist) :
    ∃ ws : List T, List.Perm ws (lastInputs f.m_valueCount hist) ∧
      f.m_pBuffer = ws.map some ++ f.m_pBuffer.drop f.m_valueCount := by
  obtain ⟨ho, hl, hc, hcur, hw⟩ := inv
  by_cases hfull : hist.length < n
  · have hvc : f.m_valueCount = hist.length := by rw [hc]; exact Nat.min_eq_left (Nat.le_of_lt hfull)
    have hcv : f.m_cursor = f.m_valueCount := by rw [hcur, hvc]; exact Nat.mod_eq_of_lt hfull
    rw [hcv, List.rotate_eq_drop_append_take (by omega)] at hw
    have hlen : (f.m_pBuffer.drop f.m_valueCount).length
        = (List.replicate (n - f.m_valueCount) (none : Option T)).length := by
      simp [hl]
    have htake := (List.append_inj hw hlen).2
    refine ⟨lastInputs f.m_valueCount hist, List.Perm.refl _, ?_⟩
    rw [← htake, List.take_append_drop]
  · have hle : n ≤ hist.length := Nat.le_of_not_lt hfull
    have hvc : f.m_valueCount = n := by rw [hc]; exact Nat.min_eq_right hle
    have hlt : f.m_cursor < n := by rw [hcur]; exact Nat.mod_lt _ hn
    rw [hvc, Nat.sub_self] at hw
    simp only [List.replicate_zero, List.nil_append] at hw
    have hback : f.m_pBuffer = (f.m_pBuffer.rotate f.m_cursor).rotate (n - f.m_cursor) := by
      rw [List.rotate_rotate]
      have : f.m_cursor + (n - f.m_cursor) = f.m_pBuffer.length := by omega
      rw [this, List.rotate_length]
    refine ⟨(lastInputs n hist).rotate (n - f.m_cursor), hvc ▸ List.rotate_perm _ _, ?_⟩
    rw [hvc, List.drop_eq_nil_of_le (by omega), List.append_nil, List.map_rotate, ← hw]
    exact hback

theorem ringInv_apply [AddCommMonoid T] (divide : T → Nat → T) (n : Nat) (hn : 0 < n)
    (f : UnrecursiveFilter T) (hist : List T) (x : T) (inv : RingInv n f hist) :
    ∃ f1, SimpleMovingAverage.apply divide f x
        = some (divide (lastInputs (min (hist.length + 1) n) (hist ++ [x])).sum
            (min (hist.length + 1) n), f1) ∧ RingInv n f1 (hist ++ [x]) := by
  obtain ⟨f1, hstore, inv1⟩ := ringInv_storeValue n hn f hist x inv
  obtain ⟨ws, hperm, hbuf⟩ := ringInv_prefix n hn f1 (hist ++ [x]) inv1
  have hcount : f1.m_valueCount = min (hist.length + 1) n := by
    rw [inv1.count]; simp
  have hpos : 0 < f1.m_valueCount := by rw [hcount]; omega
  have hwlen : ws.length = f1.m_valueCount := by
    rw [hperm.length_eq]; simp [lastInputs, inv1.count]; omega
  refine ⟨f1, ?_, inv1⟩
  cases ws with
  | nil => simp at hwlen; omega
  | cons w0 wr =>
    have h0 : f1.m_pBuffer[0]? = some (some w0) := by rw [hbuf]; simp
    have hd : f1.m_pBuffer.drop 1 = wr.map some ++ f1.m_pBuffer.drop f1.m_valueCount := by
      conv_lhs => rw [hbuf]
      simp
    have hr : f1.m_valueCount - 1 = wr.length := by simp at hwlen; omega
    have hacc := accumulate_eq f1.m_pBuffer wr _ 1 w0 hd
    have hsum : w0 + wr.sum = (lastInputs (min (hist.length + 1) n) (hist ++ [x])).sum := by
      rw [← hcount, ← hperm.sum_eq, List.sum_cons]
    simp only [SimpleMovingAverage.apply, hstore, h0, hr, hacc]
    rw [if_neg (by omega), hsum, hcount]

theorem ringInv_feed [AddCommMonoid T] (divide : T → Nat → T) (n : Nat) (hn : 0 < n)
    (xs : List T) (f : UnrecursiveFilter T) (hist : List T) (inv : RingInv n f hist) :
    ∃ ys f1, SimpleMovingAverage.feed divide f xs = some (ys, f1) ∧ RingInv n f1 (hist ++ xs) ∧
      ys.length = xs.length ∧
      (xs ≠ [] → ys.getLast? = some (expectedAverage divide n (hist ++ xs))) := by
  induction xs generalizing f hist with
  | nil => exact ⟨[], f, rfl, by simpa using inv, rfl, fun h => absurd rfl h⟩
  | cons x xs ih =>
    obtain ⟨f1, happly, inv1⟩ := ringInv_apply divide n hn f hist x inv
    obtain ⟨ys, f2, hfeed, inv2, hlen, hlast⟩ := ih f1 (hist ++ [x]) inv1
    have happ : hist ++ [x] ++ xs = hist ++ x :: xs := by simp
    refine ⟨divide (lastInputs (min (hist.length + 1) n) (hist ++ [x])).sum
        (min (hist.length + 1) n) :: ys, f2,
      by simp [SimpleMovingAverage.feed, happly, hfeed], happ ▸ inv2,
      by simp [hlen], fun _ => ?_⟩
    cases xs with
    | nil =>
      have : ys = [] := List.eq_nil_of_length_eq_zero (by simpa using hlen)
      subst this
      simp [expectedAverage]
    | cons x2 xs2 =>
      cases ys with
      | nil => simp at hlen
      | cons y2 ys2 =>
        rw [List.getLast?_cons_cons, hlast (by simp), happ]

/-- For an element type whose addition is associative and commutative with a zero, the value
returned by the last call is the sum of the last `min k order` inputs divided by `min k order`,
and the value returned after a window of `order` inputs does not depend on what was fed before
that window. -/
theorem SimpleMovingAverage.lastOutput_eq_window_average [AddCommMonoid T]
    (divide : T → Nat → T) (store : FreeStore) (order : Nat) (horder : 1 ≤ order)
    (halloc : store.allocates order = true) (inputs : List T) (hne : inputs ≠ []) :
    SimpleMovingAverage.lastOutput divide store order inputs
        = some (divide (lastInputs (min inputs.length order) inputs).sum
            (min inputs.length order)) ∧
      ∀ older older2 window : List T, window.length = order →
        SimpleMovingAverage.lastOutput divide store order (older ++ window)
          = SimpleMovingAverage.lastOutput divide store order (older2 ++ window) := by
  have key : ∀ xs : List T, xs ≠ [] →
      SimpleMovingAverage.lastOutput divide store order xs
        = some (expectedAverage divide order xs) := by
    intro xs hxs
    obtain ⟨f, hnew, inv⟩ := ringInv_new (T := T) store order horder halloc
    obtain ⟨ys, f1, hfeed, _, _, hlast⟩ := ringInv_feed divide order horder xs f [] inv
    simp only [SimpleMovingAverage.lastOutput, SimpleMovingAverage.new, hnew, hfeed]
    simpa using hlast hxs
  refine ⟨key inputs hne, ?_⟩
  intro older older2 window hw
  have hwne : window ≠ [] := by
    intro h; rw [h] at hw; simp at hw; omega
  have hwin : ∀ pre : List T, expectedAverage divide order (pre ++ window)
      = divide window.sum order := by
    intro pre
    have hmin : min (pre ++ window).length order = order := by
      rw [List.length_append, hw]; omega
    unfold expectedAverage lastInputs
    rw [hmin, List.length_append, hw, Nat.add_sub_cancel, List.drop_left]
  rw [key _ (by simp [hwne]), key _ (by simp [hwne]), hwin, hwin]

theorem accumulate_foldl [Add T] (buf : List (Option T)) (zs : List T)
    (rest : List (Option T)) (i : Nat) (acc : T) (h : buf.drop i = zs.map some ++ rest) :
    SimpleMovingAverage.accumulate buf zs.length i acc
      = some (zs.foldl (fun sum x => sum + x) acc) := by
  induction zs generalizing i acc with
  | nil => rfl
  | cons z zs ih =>
    have hget : buf[i]? = some (some z) := by
      have := List.getElem?_drop (L := buf) (i := i) (j := 0)
      rw [h] at this
      simpa using this.symm
    have hdrop : buf.drop (i + 1) = zs.map some ++ rest := by
      rw [← List.tail_drop, h]; rfl
    simp only [List.length_cons, SimpleMovingAverage.accumulate, hget, List.foldl_cons]
    exact ih (i + 1) (acc + z) hdrop

theorem ringInv_cells (n : Nat) (hn : 0 < n) (f : UnrecursiveFilter T) (hist : List T)
    (inv : RingInv n f hist) :
    f.m_pBuffer = (bufferWindow n hist).map some ++ f.m_pBuffer.drop f.m_valueCount := by
  obtain ⟨ho, hl, hc, hcur, hw⟩ := inv
  unfold bufferWindow
  by_cases hfull : hist.length < n
  · have hmin : min hist.length n = hist.length := Nat.min_eq_left (Nat.le_of_lt hfull)
    have hvc : f.m_valueCount = hist.length := by rw [hc, hmin]
    have hcv : f.m_cursor = f.m_valueCount := by rw [hcur, hvc]; exact Nat.mod_eq_of_lt hfull
    rw [hcv, List.rotate_eq_drop_append_take (by omega)] at hw
    have hlen : (f.m_pBuffer.drop f.m_valueCount).length
        = (List.replicate (n - f.m_valueCount) (none : Option T)).length := by
      simp [hl]
    have htake := (List.append_inj hw hlen).2
    rw [hmin, Nat.mod_eq_of_lt hfull, Nat.sub_self, List.rotate_zero, ← hvc, ← htake,
      List.take_append_drop]
  · have hle : n ≤ hist.length := Nat.le_of_not_lt hfull
    have hmin : min hist.length n = n := Nat.min_eq_right hle
    have hvc : f.m_valueCount = n := by rw [hc, hmin]
    have hlt : f.m_cursor < n := by rw [hcur]; exact Nat.mod_lt _ hn
    rw [hvc, Nat.sub_self] at hw
    simp only [List.replicate_zero, List.nil_append] at hw
    have hback : f.m_pBuffer = (f.m_pBuffer.rotate f.m_cursor).rotate (n - f.m_cursor) := by
      rw [List.rotate_rotate]
      have : f.m_cursor + (n - f.m_cursor) = f.m_pBuffer.length := by omega
      rw [this, List.rotate_length]
    rw [hmin, hvc, List.drop_eq_nil_of_le (by omega), List.append_nil, List.map_rotate, ← hw,
      ← hcur]
    exact hback

theorem bufferWindow_length (n : Nat) (hist : List T) :
    (bufferWindow n hist).length = min hist.length n := by
  unfold bufferWindow lastInputs
  rw [List.length_rotate, List.length_drop]
  omega

theorem ringInv_apply_bufferOrder [Add T] (divide : T → Nat → T) (n : Nat) (hn : 0 < n)
    (f : UnrecursiveFilter T) (hist : List T) (x : T) (inv : RingInv n f hist) :
    ∃ f1 y, bufferOrderAverage divide n (hist ++ [x]) = some y ∧
      SimpleMovingAverage.apply divide f x = some (y, f1) ∧ RingInv n f1 (hist ++ [x]) := by
  obtain ⟨f1, hstore, inv1⟩ := ringInv_storeValue n hn f hist x inv
  have hbuf := ringInv_cells n hn f1 (hist ++ [x]) inv1
  have hwlen := bufferWindow_length n (hist ++ [x])
  have hcount : f1.m_valueCount = min (hist ++ [x]).length n := inv1.count
  have hpos : 0 < f1.m_valueCount := by
    rw [hcount, List.length_append, List.length_singleton]; omega
  cases hws : bufferWindow n (hist ++ [x]) with
  | nil => rw [hws] at hwlen; simp at hwlen; omega
  | cons w0 wr =>
    rw [hws] at hbuf hwlen
    have h0 : f1.m_pBuffer[0]? = some (some w0) := by rw [hbuf]; simp
    have hd : f1.m_pBuffer.drop 1 = wr.map some ++ f1.m_pBuffer.drop f1.m_valueCount := by
      conv_lhs => rw [hbuf]
      simp
    have hr : f1.m_valueCount - 1 = wr.length := by
      simp only [List.length_cons] at hwlen; omega
    have hacc := accumulate_foldl f1.m_pBuffer wr _ 1 w0 hd
    refine ⟨f1, divide (wr.foldl (fun sum x => sum + x) w0) (min (hist ++ [x]).length n),
      ?_, ?_, inv1⟩
    · simp [bufferOrderAverage, hws, sumLeftToRight]
    · simp only [SimpleMovingAverage.apply, hstore, h0, hr, hacc]
      rw [if_neg (by omega), hcount]

theorem ringInv_feed_bufferOrder [Add T] (divide : T → Nat → T) (n : Nat) (hn : 0 < n)
    (xs : List T) (f : UnrecursiveFilter T) (hist : List T) (inv : RingInv n f hist) :
    ∃ ys f1, SimpleMovingAverage.feed divide f xs = some (ys, f1) ∧
      ys.length = xs.length ∧
      (xs ≠ [] → ∃ y, ys.getLast? = some y ∧
        bufferOrderAverage divide n (hist ++ xs) = some y) := by
  induction xs generalizing f hist with
  | nil => exact ⟨[], f, rfl, rfl, fun h => absurd rfl h⟩
  | cons x xs ih =>
    obtain ⟨f1, y, hy, happly, inv1⟩ := ringInv_apply_bufferOrder divide n hn f hist x inv
    obtain ⟨ys, f2, hfeed, hlen, hlast⟩ := ih f1 (hist ++ [x]) inv1
    have happ : hist ++ [x] ++ xs = hist ++ x :: xs := by simp
    refine ⟨y :: ys, f2, by simp [SimpleMovingAverage.feed, happly, hfeed], by simp [hlen],
      fun _ => ?_⟩
    cases xs with
    | nil =>
      have : ys = [] := List.eq_nil_of_length_eq_zero (by simpa using hlen)
      subst this
      exact ⟨y, rfl, hy⟩
    | cons x2 xs2 =>
      cases ys with
      | nil => simp at hlen
      | cons y2 ys2 =>
        obtain ⟨z, hz, hav⟩ := hlast (by simp)
        exact ⟨z, by rw [List.getLast?_cons_cons, hz], happ ▸ hav⟩

theorem lastOutput_eq_bufferOrderAverage [Add T] (divide : T → Nat → T) (store : FreeStore)
    (order : Nat) (horder : 1 ≤ order) (halloc : store.allocates order = true)
    (inputs : List T) (hne : inputs ≠ []) :
    ∃ y, bufferOrderAverage divide order inputs = some y ∧
      SimpleMovingAverage.lastOutput divide store order inputs = some y := by
  obtain ⟨f, hnew, inv⟩ := ringInv_new (T := T) store order horder halloc
  obtain ⟨ys, f1, hfeed, _, hlast⟩ := ringInv_feed_bufferOrder divide order horder inputs f [] inv
  obtain ⟨y, hy, hav⟩ := hlast hne
  refine ⟨y, by simpa using hav, ?_⟩
  simp only [SimpleMovingAverage.lastOutput, SimpleMovingAverage.new, hnew, hfeed]
  exact hy

theorem bufferWindow_append_window (order : Nat) (older window : List T)
    (hw : window.length = order) :
    bufferWindow order (older ++ window) = window.rotate (order - older.length % order) := by
  unfold bufferWindow lastInputs
  have hmin : min (older ++ window).length order = order := by
    rw [List.length_append, hw]; omega
  rw [hmin, List.length_append, hw, Nat.add_sub_cancel, List.drop_left, Nat.add_mod_right]

theorem foldl_add_cons [Add T] (assoc : ∀ a b c : T, a + b + c = a + (b + c)) (l : List T)
    (a b : T) :
    (b :: l).foldl (fun sum x => sum + x) a = a + l.foldl (fun sum x => sum + x) b := by
  induction l generalizing a b with
  | nil => rfl
  | cons c l ih =>
    have h1 := ih (a + b) c
    have h2 := ih b c
    simp only [List.foldl_cons] at h1 h2 ⊢
    rw [h1, h2, assoc]

theorem sumLeftToRight_append [Add T] (assoc : ∀ a b c : T, a + b + c = a + (b + c))
    (a b : T) (front back : List T) :
    sumLeftToRight ((a :: front) ++ (b :: back))
      = some (front.foldl (fun sum x => sum + x) a + back.foldl (fun sum x => sum + x) b) := by
  unfold sumLeftToRight
  simp only [List.cons_append, List.foldl_append]
  rw [foldl_add_cons assoc]

theorem sumLeftToRight_rotate [Add T] (assoc : ∀ a b c : T, a + b + c = a + (b + c))
    (comm : ∀ a b : T, a + b = b + a) (l : List T) (r : Nat) :
    sumLeftToRight (l.rotate r) = sumLeftToRight l := by
  rw [← List.rotate_mod]
  rcases Nat.eq_zero_or_pos l.length with h0 | hpos
  · rw [List.eq_nil_of_length_eq_zero h0]; simp
  · have hlt : r % l.length < l.length := Nat.mod_lt _ hpos
    rw [List.rotate_eq_drop_append_take (Nat.le_of_lt hlt)]
    generalize r % l.length = k at hlt
    have hsplit : l = l.take k ++ l.drop k := (List.take_append_drop k l).symm
    cases htake : l.take k with
    | nil =>
      rw [htake, List.nil_append] at hsplit
      rw [List.append_nil, ← hsplit]
    | cons a front =>
      cases hdrop : l.drop k with
      | nil =>
        have := List.length_drop k l
        rw [hdrop] at this
        simp at this
        omega
      | cons b back =>
        rw [htake, hdrop] at hsplit
        rw [hsplit, sumLeftToRight_append assoc, sumLeftToRight_append assoc, comm]

/-- C5, as amended: for every order at least 1 and every non-empty sequence of `k` inputs fed one
by one to the call operator of a constructed `SimpleMovingAverage`, the value returned by the last
call is the total of the cells `0` to `min k order - 1`, added from the first cell on, divided by
`min k order`; these cells hold the last `min k order` inputs, the input number `t` in the cell
`t mod order`. Hence the value returned after a window of `order` inputs depends on what was fed
before the window only through the number of those inputs modulo `order`. When the addition of
the element type is associative and commutative, the returned value is the sum of the last
`min k order` inputs divided by `min k order` and does not depend on older inputs at all. -/
theorem SimpleMovingAverage.lastOutput_eq_buffer_order_average [Add T] (divide : T → Nat → T)
    (store : FreeStore) (order : Nat) (horder : 1 ≤ order)
    (halloc : store.allocates order = true) (inputs : List T) (hne : inputs ≠ []) :
    (∃ total, sumLeftToRight (bufferWindow order inputs) = some total ∧
      SimpleMovingAverage.lastOutput divide store order inputs
        = some (divide total (min inputs.length order))) ∧
    (bufferWindow order inputs).Perm (lastInputs (min inputs.length order) inputs) ∧
    (∀ older older2 window : List T, window.length = order →
      older.length % order = older2.length % order →
      SimpleMovingAverage.lastOutput divide store order (older ++ window)
        = SimpleMovingAverage.lastOutput divide store order (older2 ++ window)) ∧
    ((∀ a b c : T, a + b + c = a + (b + c)) → (∀ a b : T, a + b = b + a) →
      (∃ total, sumLeftToRight (lastInputs (min inputs.length order) inputs) = some total ∧
        SimpleMovingAverage.lastOutput divide store order inputs
          = some (divide total (min inputs.length order))) ∧
      ∀ older older2 window : List T, window.length = order →
        SimpleMovingAverage.lastOutput divide store order (older ++ window)
          = SimpleMovingAverage.lastOutput divide store order (older2 ++ window)) := by
  have key : ∀ xs : List T, xs ≠ [] →
      SimpleMovingAverage.lastOutput divide store order xs
        = bufferOrderAverage divide order xs := by
    intro xs hxs
    obtain ⟨y, hav, hout⟩ :=
      lastOutput_eq_bufferOrderAverage divide store order horder halloc xs hxs
    rw [hav, hout]
  have hsome : ∃ total, sumLeftToRight (bufferWindow order inputs) = some total ∧
      SimpleMovingAverage.lastOutput divide store order inputs
        = some (divide total (min inputs.length order)) := by
    obtain ⟨y, hav, hout⟩ :=
      lastOutput_eq_bufferOrderAverage divide store order horder halloc inputs hne
    unfold bufferOrderAverage at hav
    cases hsum : sumLeftToRight (bufferWindow order inputs) with
    | none => rw [hsum] at hav; simp at hav
    | some total =>
      rw [hsum] at hav
      simp only [Option.map_some', Option.some.injEq] at hav
      exact ⟨total, rfl, by rw [hout, hav]⟩
  have hwne : ∀ (pre window : List T), window.length = order → pre ++ window ≠ [] := by
    intro pre window hw h
    have := congrArg List.length h
    rw [List.length_append, hw] at this
    simp at this
    omega
  have hmin : ∀ (pre window : List T), window.length = order →
      min (pre ++ window).length order = order := by
    intro pre window hw
    rw [List.length_append, hw]; omega
  refine ⟨hsome, List.rotate_perm _ _, ?_, ?_⟩
  · intro older older2 window hw hmod
    rw [key _ (hwne older window hw), key _ (hwne older2 window hw)]
    unfold bufferOrderAverage
    rw [bufferWindow_append_window order older window hw,
      bufferWindow_append_window order older2 window hw, hmod, hmin older window hw,
      hmin older2 window hw]
  · intro assoc comm
    constructor
    · obtain ⟨total, hsum, hout⟩ := hsome
      unfold bufferWindow at hsum
      rw [sumLeftToRight_rotate assoc comm] at hsum
      exact ⟨total, hsum, hout⟩
    · intro older older2 window hw
      rw [key _ (hwne older window hw), key _ (hwne older2 window hw)]
      unfold bufferOrderAverage
      rw [bufferWindow_append_window order older window hw,
        bufferWindow_append_window order older2 window hw,
        sumLeftToRight_rotate assoc comm, sumLeftToRight_rotate assoc comm,
        hmin older window hw, hmin older2 window hw]

/-- Witness for C5 as amended: a filter of order 4 over `double`, fed the four inputs `1e16`, `1`,
`-1e16`, `3`. -/
theorem SimpleMovingAverage.lastOutput_eq_buffer_order_average_witness :
    1 ≤ 4 ∧ exampleStore.allocates 4 = true ∧ roundingWindow ≠ [] ∧
    (∃ total, sumLeftToRight (bufferWindow 4 roundingWindow) = some total ∧
      SimpleMovingAverage.lastOutput Binary64.divide exampleStore 4 roundingWindow
        = some (Binary64.divide total (min roundingWindow.length 4))) ∧
    (bufferWindow 4 roundingWindow).Perm (lastInputs (min roundingWindow.length 4) roundingWindow) ∧
    (∀ older older2 window : List Binary64, window.length = 4 →
      older.length % 4 = older2.length % 4 →
      SimpleMovingAverage.lastOutput Binary64.divide exampleStore 4 (older ++ window)
        = SimpleMovingAverage.lastOutput Binary64.divide exampleStore 4 (older2 ++ window)) ∧
    ((∀ a b c : Binary64, a + b + c = a + (b + c)) → (∀ a b : Binary64, a + b = b + a) →
      (∃ total,
        sumLeftToRight (lastInputs (min roundingWindow.length 4) roundingWindow) = some total ∧
        SimpleMovingAverage.lastOutput Binary64.divide exampleStore 4 roundingWindow
          = some (Binary64.divide total (min roundingWindow.length 4))) ∧
      ∀ older older2 window : List Binary64, window.length = 4 →
        SimpleMovingAverage.lastOutput Binary64.divide exampleStore 4 (older ++ window)
          = SimpleMovingAverage.lastOutput Binary64.divide exampleStore 4 (older2 ++ window)) :=
  ⟨by decide, by decide, by decide,
    SimpleMovingAverage.lastOutput_eq_buffer_order_average Binary64.divide exampleStore 4
      (by decide) (by decide) roundingWindow (by decide)⟩

set_option exponentiation.threshold 5000 in
/-- The counterexample to C5 as stated: a filter of order 4 over `double`. After the same last four
inputs `1e16`, `1`, `-1e16`, `3` the call operator returns 0.75 when nothing was fed before them,
1 when one input was, and 1.25 when two were: the result depends on inputs older than the last
four, and the first of these values is not the sum of the last four inputs divided by 4. -/
theorem SimpleMovingAverage.lastOutput_depends_on_older_inputs :
    roundingWindow.length = 4 ∧
    SimpleMovingAverage.lastOutput Binary64.divide exampleStore 4 roundingWindow
      = some (Binary64.ofDyadic 3 2) ∧
    SimpleMovingAverage.lastOutput Binary64.divide exampleStore 4
        ([Binary64.ofInt 0] ++ roundingWindow)
      = some (Binary64.ofInt 1) ∧
    SimpleMovingAverage.lastOutput Binary64.divide exampleStore 4
        ([Binary64.ofInt 0, Binary64.ofInt 0] ++ roundingWindow)
      = some (Binary64.ofDyadic 5 2) ∧
    SimpleMovingAverage.lastOutput Binary64.divide exampleStore 4 ([] ++ roundingWindow)
      ≠ SimpleMovingAverage.lastOutput Binary64.divide exampleStore 4
          ([Binary64.ofInt 0] ++ roundingWindow) ∧
    SimpleMovingAverage.lastOutput Binary64.divide exampleStore 4 roundingWindow
      ≠ some (Binary64.divide (lastInputs (min roundingWindow.length 4) roundingWindow).sum
          (min roundingWindow.length 4)) := by
  decide

/-- C6, as amended: constructing a `SimpleMovingAverage` fails with an invalid-argument error
exactly when the requested order is 0. For an order of at least 1 the only other failures are
those of the allocation `new T[m_order]`: `std::bad_array_new_length` when the array is larger
than the implementation supports, `std::bad_alloc` when the storage is not granted. When the
allocation succeeds, construction succeeds with `order()` equal to the requested order, cursor 0
and value count 0, and every constructed filter is of that form. -/
theorem SimpleMovingAverage.new_succeeds_iff_allocated (T : Type) (store : FreeStore)
    (order : Nat) :
    ((∃ what, (SimpleMovingAverage.new store order : Except FilterError (SimpleMovingAverage T))
        = Except.error (FilterError.invalidArgument what)) ↔ order = 0) ∧
    (1 ≤ order → store.allocates order = true →
      ∃ f : SimpleMovingAverage T, SimpleMovingAverage.new store order = Except.ok f ∧
        f.order = order ∧ f.m_cursor = 0 ∧ f.m_valueCount = 0) ∧
    (1 ≤ order → store.maxArrayBytes < order * store.elementSize →
      (SimpleMovingAverage.new store order : Except FilterError (SimpleMovingAverage T))
        = Except.error FilterError.badArrayNewLength) ∧
    (1 ≤ order → order * store.elementSize ≤ store.maxArrayBytes →
      store.grants (order * store.elementSize) = false →
      (SimpleMovingAverage.new store order : Except FilterError (SimpleMovingAverage T))
        = Except.error FilterError.badAlloc) ∧
    (∀ f : SimpleMovingAverage T, SimpleMovingAverage.new store order = Except.ok f →
      1 ≤ order ∧ store.allocates order = true ∧
        f.order = order ∧ f.m_cursor = 0 ∧ f.m_valueCount = 0) := by
  unfold SimpleMovingAverage.new UnrecursiveFilter.new FreeStore.allocates
  by_cases h0 : order = 0
  · subst h0
    simp
  · have hpos : 1 ≤ order := Nat.pos_of_ne_zero h0
    by_cases hbig : store.maxArrayBytes < order * store.elementSize
    · simp [h0, hbig, Nat.not_le.mpr hbig]
    · cases hgr : store.grants (order * store.elementSize)
      · simp [h0, hbig, hgr]
      · simp [h0, hbig, hgr, hpos, Nat.not_lt.mp hbig, UnrecursiveFilter.order]

/-- Witness for C6 at order 3, with an allocation that succeeds. -/
theorem SimpleMovingAverage.new_succeeds_iff_allocated_witness :
    1 ≤ 3 ∧ exampleStore.allocates 3 = true ∧
      ∃ f : SimpleMovingAverage Binary64, SimpleMovingAverage.new exampleStore 3 = Except.ok f ∧
        f.order = 3 ∧ f.m_cursor = 0 ∧ f.m_valueCount = 0 :=
  ⟨by decide, by decide,
    (SimpleMovingAverage.new_succeeds_iff_allocated Binary64 exampleStore 3).2.1
      (by decide) (by decide)⟩

/-- The counterexample to C6 as stated: the order `2^62` is at least 1, but an array of `2^62`
elements of 8 bytes is larger than `SIZE_MAX`, so that `new T[m_order]` throws
`std::bad_array_new_length` and the construction does not succeed. -/
theorem SimpleMovingAverage.new_fails_for_large_order :
    1 ≤ 2 ^ 62 ∧
      (SimpleMovingAverage.new exampleStore (2 ^ 62) :
          Except FilterError (SimpleMovingAverage Binary64))
        = Except.error FilterError.badArrayNewLength ∧
      ¬ ∃ f : SimpleMovingAverage Binary64,
          SimpleMovingAverage.new exampleStore (2 ^ 62) = Except.ok f := by
  have h : (SimpleMovingAverage.new exampleStore (2 ^ 62) :
      Except FilterError (SimpleMovingAverage Binary64))
        = Except.error FilterError.badArrayNewLength := by
    unfold SimpleMovingAverage.new UnrecursiveFilter.new
    rw [if_neg (by decide), if_pos (by decide)]
  refine ⟨by decide, h, ?_⟩
  rintro ⟨f, hf⟩
  rw [h] at hf
  cases hf

theorem ringInv_storeValues (n : Nat) (hn : 0 < n) (xs : List T) (f : UnrecursiveFilter T)
    (hist : List T) (inv : RingInv n f hist) :
    ∃ f1, f.storeValues xs = some f1 ∧ RingInv n f1 (hist ++ xs) := by
  induction xs generalizing f hist with
  | nil => exact ⟨f, rfl, by simpa using inv⟩
  | cons x xs ih =>
    obtain ⟨f1, hstore, inv1⟩ := ringInv_storeValue n hn f hist x inv
    obtain ⟨f2, hrest, inv2⟩ := ih f1 (hist ++ [x]) inv1
    have happ : hist ++ [x] ++ xs = hist ++ x :: xs := by simp
    exact ⟨f2, by simp [UnrecursiveFilter.storeValues, hstore, hrest], happ ▸ inv2⟩

theorem accumulate_isSome [Add T] (buf : List (Option T)) (zs : List T)
    (rest : List (Option T)) (i : Nat) (acc : T) (h : buf.drop i = zs.map some ++ rest) :
    ∃ total, SimpleMovingAverage.accumulate buf zs.length i acc = some total := by
  induction zs generalizing i acc with
  | nil => exact ⟨acc, rfl⟩
  | cons z zs ih =>
    have hget : buf[i]? = some (some z) := by
      have := List.getElem?_drop (L := buf) (i := i) (j := 0)
      rw [h] at this
      simpa using this.symm
    have hdrop : buf.drop (i + 1) = zs.map some ++ rest := by
      rw [← List.tail_drop, h]; rfl
    obtain ⟨total, htotal⟩ := ih (i + 1) (acc + z) hdrop
    exact ⟨total, by simp only [List.length_cons, SimpleMovingAverage.accumulate, hget, htotal]⟩

theorem ringInv_apply_isSome [Add T] (divide : T → Nat → T) (n : Nat) (hn : 0 < n)
    (f : UnrecursiveFilter T) (hist : List T) (x : T) (inv : RingInv n f hist) :
    ∃ f1 y, f.storeValue x = some f1 ∧ SimpleMovingAverage.apply divide f x = some (y, f1) ∧
      RingInv n f1 (hist ++ [x]) := by
  obtain ⟨f1, hstore, inv1⟩ := ringInv_storeValue n hn f hist x inv
  obtain ⟨ws, hperm, hbuf⟩ := ringInv_prefix n hn f1 (hist ++ [x]) inv1
  have hcount : f1.m_valueCount = min (hist.length + 1) n := by
    rw [inv1.count]; simp
  have hwlen : ws.length = f1.m_valueCount := by
    rw [hperm.length_eq]; simp [lastInputs, inv1.count]; omega
  cases ws with
  | nil => simp at hwlen; omega
  | cons w0 wr =>
    have h0 : f1.m_pBuffer[0]? = some (some w0) := by rw [hbuf]; simp
    have hd : f1.m_pBuffer.drop 1 = wr.map some ++ f1.m_pBuffer.drop f1.m_valueCount := by
      conv_lhs => rw [hbuf]
      simp
    have hr : f1.m_valueCount - 1 = wr.length := by simp at hwlen; omega
    obtain ⟨total, hacc⟩ := accumulate_isSome f1.m_pBuffer wr _ 1 w0 hd
    refine ⟨f1, divide total f1.m_valueCount, hstore, ?_, inv1⟩
    simp only [SimpleMovingAverage.apply, hstore, h0, hr, hacc]
    rw [if_neg (by omega)]

/-- C11: for every order at least 1, any number `k` of `storeValue` calls on a freshly constructed
filter succeeds and leaves the buffer at its `order` cells, the cursor below `order` and equal to
`k mod order`, and the value count equal to `min k order`. Hence the next `storeValue` writes
inside the buffer, the call operator returns, every index it reads is below `order`, and its
divisor `m_valueCount` is not 0. -/
theorem UnrecursiveFilter.storeValues_cursor_and_count [Add T] (divide : T → Nat → T)
    (store : FreeStore) (order : Nat) (horder : 1 ≤ order)
    (halloc : store.allocates order = true) (values : List T) :
    ∃ f0 fk : UnrecursiveFilter T,
      UnrecursiveFilter.new store order = Except.ok f0 ∧ f0.storeValues values = some fk ∧
      fk.m_order = order ∧ fk.m_pBuffer.length = order ∧
      fk.m_cursor < order ∧ fk.m_valueCount = min values.length order ∧
      fk.m_cursor = values.length % order ∧
      ∀ x : T, ∃ f1 y, fk.storeValue x = some f1 ∧
        SimpleMovingAverage.apply divide fk x = some (y, f1) ∧
        (∀ i ∈ SimpleMovingAverage.readIndices f1, i < order) ∧ f1.m_valueCount ≠ 0 := by
  obtain ⟨f0, hnew, inv0⟩ := ringInv_new (T := T) store order horder halloc
  obtain ⟨fk, hstores, invk⟩ := ringInv_storeValues order horder values f0 [] inv0
  rw [List.nil_append] at invk
  refine ⟨f0, fk, hnew, hstores, invk.order, invk.len, ?_, invk.count, invk.cursor, ?_⟩
  · rw [invk.cursor]; exact Nat.mod_lt _ horder
  · intro x
    obtain ⟨f1, y, hstore, happly, inv1⟩ :=
      ringInv_apply_isSome divide order horder fk values x invk
    have hcount : f1.m_valueCount = min (values.length + 1) order := by
      rw [inv1.count]; simp
    refine ⟨f1, y, hstore, happly, ?_, by omega⟩
    intro i hi
    unfold SimpleMovingAverage.readIndices at hi
    rcases List.mem_cons.mp hi with rfl | hi
    · omega
    · rw [List.mem_range'_1] at hi
      omega

/-- Witness for C11 at order 2, after the three integer values 1, 2, 6, with truncating
division. -/
theorem UnrecursiveFilter.storeValues_cursor_and_count_witness :
    1 ≤ 2 ∧ exampleStore.allocates 2 = true ∧
    ∃ f0 fk : UnrecursiveFilter Int,
      UnrecursiveFilter.new exampleStore 2 = Except.ok f0 ∧
      f0.storeValues [1, 2, 6] = some fk ∧
      fk.m_order = 2 ∧ fk.m_pBuffer.length = 2 ∧
      fk.m_cursor < 2 ∧ fk.m_valueCount = min [(1 : Int), 2, 6].length 2 ∧
      fk.m_cursor = [(1 : Int), 2, 6].length % 2 ∧
      ∀ x : Int, ∃ f1 y, fk.storeValue x = some f1 ∧
        SimpleMovingAverage.apply (fun (s : Int) (c : Nat) => s / (c : Int)) fk x
          = some (y, f1) ∧
        (∀ i ∈ SimpleMovingAverage.readIndices f1, i < 2) ∧ f1.m_valueCount ≠ 0 :=
  ⟨by decide, by decide,
    UnrecursiveFilter.storeValues_cursor_and_count (fun (s : Int) (c : Nat) => s / (c : Int))
      exampleStore 2 (by decide) (by decide) [1, 2, 6]⟩

end MovingAverage



/-! ## Properties of the default parameters -/

/-- C7: the default-constructed `XCSRParams` has `beta` in the closed interval from 0 to 1,
`minValue` strictly below `maxValue`, and a population cap `n` different from 0. -/
theorem XCSRParams.default_is_not_invalid :
    (0 ≤ XCSRParams.default.beta ∧ XCSRParams.default.beta ≤ 1) ∧
      XCSRParams.default.minValue < XCSRParams.default.maxValue ∧
      XCSRParams.default.n ≠ 0 := by
  refine ⟨⟨?_, ?_⟩, ?_, ?_⟩ <;> norm_num [XCSRParams.default]

/-- C8: with default-constructed `XCSRParams`, `thetaMna` is 0, so that the effective threshold
is the number of available actions whatever that number is, and `tau` is strictly positive, so
that parents are selected by tournament and not by roulette wheel. -/
theorem XCSRParams.default_thetaMna_zero_and_tau_pos :
    XCSRParams.default.thetaMna = 0 ∧ 0 < XCSRParams.default.tau ∧
      (∀ actionCount : Nat, XCSRParams.default.effectiveThetaMna actionCount = actionCount) ∧
      XCSRParams.default.parentSelection = ParentSelection.tournament := by
  refine ⟨rfl, ?_, ?_, ?_⟩
  · norm_num [XCSRParams.default]
  · intro k; simp [XCSRParams.effectiveThetaMna, XCSRParams.default]
  · norm_num [XCSRParams.parentSelection, XCSRParams.default]

/-- C12: with default-constructed `XCSRParams`, the covering spread bound `s0` is non-negative and
not larger than `(maxValue - minValue) / 2`, so the defaults are outside the situation in which,
by the comment on `doCoveringRandomRangeTruncation`, covering generates too many maximum-range
intervals; that option is `false` by default. -/
theorem XCSRParams.default_s0_within_half_range :
    0 ≤ XCSRParams.default.s0 ∧
      XCSRParams.default.s0 ≤ (XCSRParams.default.maxValue - XCSRParams.default.minValue) / 2 ∧
      XCSRParams.default.coveringSpreadTooLarge = false ∧
      XCSRParams.default.doCoveringRandomRangeTruncation = false := by
  refine ⟨?_, ?_, ?_, rfl⟩ <;> norm_num [XCSRParams.default, XCSRParams.coveringSpreadTooLarge]

/-! ## Properties of the experiment helper -/

section HelperProperties

variable {L E Sit Act Rew Par : Type}

theorem relevantCalls_record (j k : Nat) (h : ExperimentHelper L E Sit Act Rew Par)
    (made : List (Call Sit Act Rew)) :
    relevantCalls k (h.record j made).calls
      = relevantCalls k h.calls ++ if j = k then made.filter Call.isRelevant else [] := by
  unfold relevantCalls ExperimentHelper.record
  simp only [List.filter_append, List.map_append, List.filter_map, List.map_map]
  congr 1
  by_cases hjk : j = k
  · subst hjk
    simp [Function.comp_def]
  · simp [Function.comp_def, hjk]

theorem protocolCalls_record (j k : Nat) (h : ExperimentHelper L E Sit Act Rew Par)
    (made : List (Call Sit Act Rew)) :
    protocolCalls k (h.record j made).calls
      = protocolCalls k h.calls ++ if j = k then made.filter Call.isProtocol else [] := by
  unfold protocolCalls ExperimentHelper.record
  simp only [List.filter_append, List.map_append, List.filter_map, List.map_map]
  congr 1
  by_cases hjk : j = k
  · subst hjk
    simp [Function.comp_def]
  · simp [Function.comp_def, hjk]

theorem BlocksBetween.refl (j : Nat) (h : ExperimentHelper L E Sit Act Rew Par) :
    BlocksBetween j h h :=
  ⟨[], by simp, by simp⟩

theorem BlocksBetween.trans {j : Nat} {h0 h1 h2 : ExperimentHelper L E Sit Act Rew Par}
    (h01 : BlocksBetween j h0 h1) (h12 : BlocksBetween j h1 h2) : BlocksBetween j h0 h2 := by
  obtain ⟨b1, r1, p1⟩ := h01
  obtain ⟨b2, r2, p2⟩ := h12
  exact ⟨b1 ++ b2, by rw [r2, r1]; simp, by rw [p2, p1]; simp⟩

theorem BlocksBetween.of_calls_eq {j : Nat} {h0 h1 : ExperimentHelper L E Sit Act Rew Par}
    (hc : h1.calls = h0.calls) : BlocksBetween j h0 h1 :=
  ⟨[], by simp [hc], by simp [hc]⟩

theorem BlocksBetween.record_block (j k : Nat) (h0 h1 : ExperimentHelper L E Sit Act Rew Par)
    (made : List (Call Sit Act Rew)) (block : Block Sit Act Rew) (hc : h1.calls = h0.calls)
    (hr : made.filter Call.isRelevant = block.trace)
    (hp : made.filter Call.isProtocol = block.calls) :
    BlocksBetween k h0 (h1.record j made) := by
  by_cases hjk : j = k
  · refine ⟨[block], ?_, ?_⟩
    · rw [relevantCalls_record, if_pos hjk, hr, hc]; simp
    · rw [protocolCalls_record, if_pos hjk, hp, hc]; simp
  · refine ⟨[], ?_, ?_⟩
    · rw [relevantCalls_record, if_neg hjk, hc]; simp
    · rw [protocolCalls_record, if_neg hjk, hc]; simp

theorem BlocksBetween.record_other (j k : Nat) (h0 : ExperimentHelper L E Sit Act Rew Par)
    (made : List (Call Sit Act Rew)) (hr : made.filter Call.isRelevant = []) :
    BlocksBetween k h0 (h0.record j made) := by
  have hp : made.filter Call.isProtocol = [] := by
    rw [List.filter_eq_nil_iff] at hr ⊢
    intro call hmem hproto
    apply hr call hmem
    cases call <;> simp_all [Call.isRelevant, Call.isProtocol]
  refine ⟨[], ?_, ?_⟩
  · rw [relevantCalls_record, hr]; simp
  · rw [protocolCalls_record, hp]; simp

theorem explorationStep_blocks (learner : Learner L Sit Act Rew Par)
    (env : Environment E Sit Act Rew) (j k : Nat) (h h1 : ExperimentHelper L E Sit Act Rew Par)
    (stop : Bool) (hstep : ExperimentHelper.explorationStep learner env j h = some (stop, h1)) :
    BlocksBetween k h h1 := by
  unfold ExperimentHelper.explorationStep at hstep
  split at hstep
  · next l0 e0 _ _ =>
    simp only [Option.some.injEq, Prod.mk.injEq] at hstep
    obtain ⟨-, rfl⟩ := hstep
    cases hcb : h.m_explorationCallback with
    | none =>
      simp only [hcb]
      exact BlocksBetween.record_block j k h _ _
        (Block.explore _ _ _ _ _) rfl rfl rfl
    | some cb =>
      simp only [hcb]
      exact BlocksBetween.record_block j k h _ _
        (Block.explore _ _ _ _ _) rfl rfl rfl
  · simp at hstep

theorem exploitationStep_blocks (learner : Learner L Sit Act Rew Par)
    (env : Environment E Sit Act Rew) (j k : Nat) (h h1 : ExperimentHelper L E Sit Act Rew Par)
    (stop : Bool) (hstep : ExperimentHelper.exploitationStep learner env j h = some (stop, h1)) :
    BlocksBetween k h h1 := by
  unfold ExperimentHelper.exploitationStep at hstep
  split at hstep
  · next l0 e0 _ _ =>
    simp only [Option.some.injEq, Prod.mk.injEq] at hstep
    obtain ⟨-, rfl⟩ := hstep
    cases hcb : h.m_exploitationCallback <;> cases hup : h.m_settings.updateInExploitation
    · exact BlocksBetween.record_block j k h _ _ (Block.exploitOnly _ _ _ _) rfl rfl rfl
    · exact BlocksBetween.record_block j k h _ _ (Block.exploitUpdate _ _ _ _ _) rfl rfl rfl
    · exact BlocksBetween.record_block j k h _ _ (Block.exploitOnly _ _ _ _) rfl rfl rfl
    · exact BlocksBetween.record_block j k h _ _ (Block.exploitUpdate _ _ _ _ _) rfl rfl rfl
  · simp at hstep

theorem explorationEpisode_blocks (learner : Learner L Sit Act Rew Par)
    (env : Environment E Sit Act Rew) (j k fuel : Nat) (h : ExperimentHelper L E Sit Act Rew Par) :
    BlocksBetween k h (ExperimentHelper.explorationEpisode learner env j fuel h).2 := by
  induction fuel generalizing h with
  | zero => exact BlocksBetween.refl k h
  | succ fuel ih =>
    unfold ExperimentHelper.explorationEpisode
    split
    · exact BlocksBetween.refl k h
    · next h1 hstep => exact explorationStep_blocks learner env j k h h1 true hstep
    · next h1 hstep =>
      exact (explorationStep_blocks learner env j k h h1 false hstep).trans (ih h1)

theorem exploitationEpisode_blocks (learner : Learner L Sit Act Rew Par)
    (env : Environment E Sit Act Rew) (j k fuel : Nat) (h : ExperimentHelper L E Sit Act Rew Par) :
    BlocksBetween k h (ExperimentHelper.exploitationEpisode learner env j fuel h).2 := by
  induction fuel generalizing h with
  | zero => exact BlocksBetween.refl k h
  | succ fuel ih =>
    unfold ExperimentHelper.exploitationEpisode
    split
    · exact BlocksBetween.refl k h
    · next h1 hstep => exact exploitationStep_blocks learner env j k h h1 true hstep
    · next h1 hstep =>
      exact (exploitationStep_blocks learner env j k h h1 false hstep).trans (ih h1)

theorem forLoop_rel {σ : Type} (R : σ → σ → Prop) (hrefl : ∀ s, R s s)
    (htrans : ∀ a b c, R a b → R b c → R a c) (body : Nat → σ → Status × σ)
    (hbody : ∀ i s, R s (body i s).2) (n i : Nat) (s : σ) : R s (forLoop body n i s).2 := by
  induction n generalizing i s with
  | zero => exact hrefl s
  | succ n ih =>
    unfold forLoop
    have hb := hbody i s
    split
    · next s1 heq =>
      rw [heq] at hb
      exact htrans _ _ _ hb (ih (i + 1) s1)
    · next status s1 _ heq =>
      rw [heq] at hb
      exact hb

theorem forLoop_blocks (k : Nat)
    (body : Nat → ExperimentHelper L E Sit Act Rew Par
      → Status × ExperimentHelper L E Sit Act Rew Par)
    (hbody : ∀ i s, BlocksBetween k s (body i s).2) (n i : Nat)
    (s : ExperimentHelper L E Sit Act Rew Par) : BlocksBetween k s (forLoop body n i s).2 :=
  forLoop_rel (BlocksBetween k) (BlocksBetween.refl k) (fun _ _ _ hab hbc => hab.trans hbc)
    body hbody n i s

theorem exploitationPhase_blocks (learner : Learner L Sit Act Rew Par)
    (env : Environment E Sit Act Rew) (k fuel : Nat) (h : ExperimentHelper L E Sit Act Rew Par) :
    BlocksBetween k h (ExperimentHelper.exploitationPhase learner env fuel h).2 := by
  unfold ExperimentHelper.exploitationPhase
  split
  · apply forLoop_blocks
    intro j hj
    have hinner : BlocksBetween k hj (forLoop (fun _ hk =>
        match ExperimentHelper.exploitationEpisode learner env j fuel hk with
        | (Status.ok, h1) => (Status.ok, h1.record j [Call.populationSize])
        | (status, h1) => (status, h1)) h.m_settings.exploitationCount 0 hj).2 := by
      apply forLoop_blocks
      intro _ hk
      have hep := exploitationEpisode_blocks learner env j k fuel hk
      split
      · next h1 heq =>
        rw [heq] at hep
        exact hep.trans (BlocksBetween.record_other j k h1 _ rfl)
      · next status h1 _ heq =>
        rw [heq] at hep
        exact hep
    split
    · next h2 heq =>
      rw [heq] at hinner
      exact hinner.trans (BlocksBetween.record_other j k h2 _ rfl)
    · next status h2 _ heq =>
      rw [heq] at hinner
      exact hinner
  · exact BlocksBetween.refl k h

theorem explorationPhase_blocks (learner : Learner L Sit Act Rew Par)
    (env : Environment E Sit Act Rew) (k fuel : Nat) (h : ExperimentHelper L E Sit Act Rew Par) :
    BlocksBetween k h (ExperimentHelper.explorationPhase learner env fuel h).2 := by
  unfold ExperimentHelper.explorationPhase
  apply forLoop_blocks
  intro j hj
  apply forLoop_blocks
  intro _ hk
  exact explorationEpisode_blocks learner env j k fuel hk

theorem iteration_blocks (learner : Learner L Sit Act Rew Par)
    (env : Environment E Sit Act Rew) (k fuel : Nat) (h : ExperimentHelper L E Sit Act Rew Par) :
    BlocksBetween k h (ExperimentHelper.iteration learner env fuel h).2 := by
  unfold ExperimentHelper.iteration
  have h1 := exploitationPhase_blocks learner env k fuel h
  split
  · next s1 heq =>
    rw [heq] at h1
    have h2 := explorationPhase_blocks learner env k fuel s1
    split
    · next s2 heq2 =>
      rw [heq2] at h2
      exact h1.trans (h2.trans (BlocksBetween.of_calls_eq rfl))
    · next status s2 _ heq2 =>
      rw [heq2] at h2
      exact h1.trans h2
  · next status s1 _ heq =>
    rw [heq] at h1
    exact h1

/-- C1: whatever the settings, the learners, the environments, the callbacks and the step budget,
the protocol calls that `runIteration` makes on any single learner `j` are the concatenation of
blocks of three shapes: `explore(s)` then `reward(r, e)`; `exploit(s, true)` then `reward(r, e)`;
`exploit(s, false)` alone. Interleaved with the environment calls of the same seed, each block
shows that `r` is what `executeAction` returned for the action the learner selected and that `e`
is what `isEndOfProblem` returned right after it. -/
theorem ExperimentHelper.runIteration_protocol_blocks (learner : Learner L Sit Act Rew Par)
    (env : Environment E Sit Act Rew) (fuel repeatCount : Nat)
    (h : ExperimentHelper L E Sit Act Rew Par) (j : Nat) :
    ∃ blocks : List (Block Sit Act Rew),
      relevantCalls j (ExperimentHelper.runIteration learner env fuel repeatCount h).2.calls
        = relevantCalls j h.calls ++ blocks.flatMap Block.trace ∧
      protocolCalls j (ExperimentHelper.runIteration learner env fuel repeatCount h).2.calls
        = protocolCalls j h.calls ++ blocks.flatMap Block.calls := by
  unfold ExperimentHelper.runIteration
  exact forLoop_blocks j _ (fun _ s => iteration_blocks learner env j fuel s) repeatCount 0 h

theorem makeExperimentsLoop_eq (learner : Learner L Sit Act Rew Par) (availableActions : List Act)
    (constants : Par) (n : Nat) (experiments : List L) :
    ExperimentHelper.makeExperimentsLoop learner availableActions constants n experiments
      = experiments ++ List.replicate n (learner.construct availableActions constants) := by
  induction n generalizing experiments with
  | zero => simp [ExperimentHelper.makeExperimentsLoop]
  | succ n ih =>
    rw [ExperimentHelper.makeExperimentsLoop, ih, List.replicate_succ]
    simp

theorem makeExperiments_eq (learner : Learner L Sit Act Rew Par) (settings : ExperimentSettings)
    (availableActions : List Act) (constants : Par) :
    ExperimentHelper.makeExperiments learner settings availableActions constants
      = List.replicate settings.seedCount (learner.construct availableActions constants) := by
  simp [ExperimentHelper.makeExperiments, makeExperimentsLoop_eq]

theorem constructLoop_length (make : Nat → E) (n i : Nat) (environments : List E × List E) :
    (ExperimentHelper.constructLoop make n i environments).1.length = environments.1.length + n ∧
    (ExperimentHelper.constructLoop make n i environments).2.length = environments.2.length + n := by
  induction n generalizing i environments with
  | zero => simp [ExperimentHelper.constructLoop]
  | succ n ih =>
    obtain ⟨exploration, exploitation⟩ := environments
    rw [ExperimentHelper.constructLoop]
    have := ih (i + 1) (exploration ++ [make (2 * i)], exploitation ++ [make (2 * i + 1)])
    simp only [List.length_append, List.length_singleton] at this
    constructor
    · rw [this.1]
      show exploration.length + 1 + n = exploration.length + (n + 1)
      omega
    · rw [this.2]
      show exploitation.length + 1 + n = exploitation.length + (n + 1)
      omega

theorem constructEnvironments_sized (learner : Learner L Sit Act Rew Par)
    (env : Environment E Sit Act Rew) (make : Nat → E) (h : ExperimentHelper L E Sit Act Rew Par)
    (hseed : 1 ≤ h.m_settings.seedCount) :
    ∃ h1 first, ExperimentHelper.constructEnvironments learner env make h = some h1 ∧
      h1.m_settings = h.m_settings ∧ h1.calls = h.calls ∧ h1.Sized ∧
      h1.m_experiments = List.replicate h.m_settings.seedCount
        (learner.construct (env.availableActions first) h.m_constants) := by
  have hlen := constructLoop_length make h.m_settings.seedCount 0 (([], []) : List E × List E)
  simp only [List.length_nil, Nat.zero_add] at hlen
  have hne : h.m_settings.seedCount ≠ 0 := by omega
  have hfirst : ∃ first,
      (ExperimentHelper.constructLoop make h.m_settings.seedCount 0 ([], [])).1[0]? = some first := by
    have hlt : 0 < (ExperimentHelper.constructLoop make h.m_settings.seedCount 0 ([], [])).1.length := by
      rw [hlen.1]; omega
    exact ⟨_, List.getElem?_eq_getElem hlt⟩
  obtain ⟨first, hfirst⟩ := hfirst
  refine ⟨{ h with
      m_explorationEnvironments :=
        (ExperimentHelper.constructLoop make h.m_settings.seedCount 0 ([], [])).1
      m_exploitationEnvironments :=
        (ExperimentHelper.constructLoop make h.m_settings.seedCount 0 ([], [])).2
      m_experiments :=
        ExperimentHelper.makeExperiments learner h.m_settings (env.availableActions first)
          h.m_constants }, first, ?_, ?_⟩
  · unfold ExperimentHelper.constructEnvironments
    simp only [hne, if_false, hfirst]
  · refine ⟨rfl, rfl, ⟨?_, hlen.1, hlen.2⟩, makeExperiments_eq _ _ _ _⟩
    simp [makeExperiments_eq]

theorem Sized.record (h : ExperimentHelper L E Sit Act Rew Par) (j : Nat)
    (made : List (Call Sit Act Rew)) (hs : h.Sized) : (h.record j made).Sized := hs

theorem explorationStep_sized (learner : Learner L Sit Act Rew Par)
    (env : Environment E Sit Act Rew) (j : Nat) (h : ExperimentHelper L E Sit Act Rew Par)
    (hs : h.Sized) (hj : j < h.m_settings.seedCount) :
    ∃ stop h1, ExperimentHelper.explorationStep learner env j h = some (stop, h1) ∧
      h1.Sized ∧ h1.m_settings = h.m_settings := by
  obtain ⟨h1, h2, h3⟩ := hs
  have hl : h.m_experiments[j]? = some (h.m_experiments[j]) := List.getElem?_eq_getElem (by omega)
  have he : h.m_explorationEnvironments[j]? = some (h.m_explorationEnvironments[j]) :=
    List.getElem?_eq_getElem (by omega)
  unfold ExperimentHelper.explorationStep
  rw [hl, he]
  refine ⟨_, _, rfl, ?_, rfl⟩
  refine ⟨?_, ?_, ?_⟩ <;> simp [ExperimentHelper.record, h1, h2, h3]

theorem exploitationStep_sized (learner : Learner L Sit Act Rew Par)
    (env : Environment E Sit Act Rew) (j : Nat) (h : ExperimentHelper L E Sit Act Rew Par)
    (hs : h.Sized) (hj : j < h.m_settings.seedCount) :
    ∃ stop h1, ExperimentHelper.exploitationStep learner env j h = some (stop, h1) ∧
      h1.Sized ∧ h1.m_settings = h.m_settings := by
  obtain ⟨h1, h2, h3⟩ := hs
  have hl : h.m_experiments[j]? = some (h.m_experiments[j]) := List.getElem?_eq_getElem (by omega)
  have he : h.m_exploitationEnvironments[j]? = some (h.m_exploitationEnvironments[j]) :=
    List.getElem?_eq_getElem (by omega)
  unfold ExperimentHelper.exploitationStep
  rw [hl, he]
  refine ⟨_, _, rfl, ?_, rfl⟩
  refine ⟨?_, ?_, ?_⟩ <;> simp [ExperimentHelper.record, h1, h2, h3]

theorem forLoop_inv {σ : Type} (P : σ → Prop) (body : Nat → σ → Status × σ) (bound : Nat)
    (hbody : ∀ i s, i < bound → P s → (body i s).1 ≠ Status.outOfRange ∧ P (body i s).2)
    (n i : Nat) (s : σ) (hi : i + n ≤ bound) (hs : P s) :
    (forLoop body n i s).1 ≠ Status.outOfRange ∧ P (forLoop body n i s).2 := by
  induction n generalizing i s with
  | zero => exact ⟨by simp [forLoop], hs⟩
  | succ n ih =>
    unfold forLoop
    have hb := hbody i s (by omega) hs
    split
    · next s1 heq =>
      rw [heq] at hb
      exact ih (i + 1) s1 (by omega) hb.2
    · next status s1 _ heq =>
      rw [heq] at hb
      exact hb

theorem explorationEpisode_sized (learner : Learner L Sit Act Rew Par)
    (env : Environment E Sit Act Rew) (settings : ExperimentSettings) (j fuel : Nat)
    (h : ExperimentHelper L E Sit Act Rew Par) (hj : j < settings.seedCount)
    (hs : h.Sized ∧ h.m_settings = settings) :
    (ExperimentHelper.explorationEpisode learner env j fuel h).1 ≠ Status.outOfRange ∧
      (ExperimentHelper.explorationEpisode learner env j fuel h).2.Sized ∧
      (ExperimentHelper.explorationEpisode learner env j fuel h).2.m_settings = settings := by
  induction fuel generalizing h with
  | zero => exact ⟨by simp [ExperimentHelper.explorationEpisode], hs⟩
  | succ fuel ih =>
    obtain ⟨stop, h1, hstep, hs1, hset1⟩ :=
      explorationStep_sized learner env j h hs.1 (hs.2 ▸ hj)
    unfold ExperimentHelper.explorationEpisode
    rw [hstep]
    cases stop with
    | true => exact ⟨by simp, hs1, hset1.trans hs.2⟩
    | false => exact ih h1 ⟨hs1, hset1.trans hs.2⟩

theorem exploitationEpisode_sized (learner : Learner L Sit Act Rew Par)
    (env : Environment E Sit Act Rew) (settings : ExperimentSettings) (j fuel : Nat)
    (h : ExperimentHelper L E Sit Act Rew Par) (hj : j < settings.seedCount)
    (hs : h.Sized ∧ h.m_settings = settings) :
    (ExperimentHelper.exploitationEpisode learner env j fuel h).1 ≠ Status.outOfRange ∧
      (ExperimentHelper.exploitationEpisode learner env j fuel h).2.Sized ∧
      (ExperimentHelper.exploitationEpisode learner env j fuel h).2.m_settings = settings := by
  induction fuel generalizing h with
  | zero => exact ⟨by simp [ExperimentHelper.exploitationEpisode], hs⟩
  | succ fuel ih =>
    obtain ⟨stop, h1, hstep, hs1, hset1⟩ :=
      exploitationStep_sized learner env j h hs.1 (hs.2 ▸ hj)
    unfold ExperimentHelper.exploitationEpisode
    rw [hstep]
    cases stop with
    | true => exact ⟨by simp, hs1, hset1.trans hs.2⟩
    | false => exact ih h1 ⟨hs1, hset1.trans hs.2⟩

theorem explorationPhase_sized (learner : Learner L Sit Act Rew Par)
    (env : Environment E Sit Act Rew) (settings : ExperimentSettings) (fuel : Nat)
    (h : ExperimentHelper L E Sit Act Rew Par) (hs : h.Sized ∧ h.m_settings = settings) :
    (ExperimentHelper.explorationPhase learner env fuel h).1 ≠ Status.outOfRange ∧
      (ExperimentHelper.explorationPhase learner env fuel h).2.Sized ∧
      (ExperimentHelper.explorationPhase learner env fuel h).2.m_settings = settings := by
  unfold ExperimentHelper.explorationPhase
  exact forLoop_inv
    (fun s : ExperimentHelper L E Sit Act Rew Par => s.Sized ∧ s.m_settings = settings) _
    h.m_settings.seedCount
    (fun j hj hjlt hsj =>
      forLoop_inv
        (fun s : ExperimentHelper L E Sit Act Rew Par => s.Sized ∧ s.m_settings = settings) _
        h.m_settings.explorationCount
        (fun _ hk _ hsk =>
          explorationEpisode_sized learner env settings j fuel hk (hs.2 ▸ hjlt) hsk)
        h.m_settings.explorationCount 0 hj (by omega) hsj)
    h.m_settings.seedCount 0 h (by omega) hs

theorem exploitationPhase_sized (learner : Learner L Sit Act Rew Par)
    (env : Environment E Sit Act Rew) (settings : ExperimentSettings) (fuel : Nat)
    (h : ExperimentHelper L E Sit Act Rew Par) (hs : h.Sized ∧ h.m_settings = settings) :
    (ExperimentHelper.exploitationPhase learner env fuel h).1 ≠ Status.outOfRange ∧
      (ExperimentHelper.exploitationPhase learner env fuel h).2.Sized ∧
      (ExperimentHelper.exploitationPhase learner env fuel h).2.m_settings = settings := by
  unfold ExperimentHelper.exploitationPhase
  split
  · refine forLoop_inv
      (fun s : ExperimentHelper L E Sit Act Rew Par => s.Sized ∧ s.m_settings = settings) _
      h.m_settings.seedCount ?_ h.m_settings.seedCount 0 h (by omega) hs
    intro j hj hjlt hsj
    have hinner := forLoop_inv
      (fun s : ExperimentHelper L E Sit Act Rew Par => s.Sized ∧ s.m_settings = settings)
      (fun _ hk =>
        match ExperimentHelper.exploitationEpisode learner env j fuel hk with
        | (Status.ok, h1) => (Status.ok, h1.record j [Call.populationSize])
        | (status, h1) => (status, h1))
      h.m_settings.exploitationCount
      (by
        intro _ hk _ hsk
        have hep := exploitationEpisode_sized learner env settings j fuel hk (hs.2 ▸ hjlt) hsk
        beta_reduce
        split
        · next h1 heq =>
          rw [heq] at hep
          exact ⟨by simp, hep.2⟩
        · next status h1 _ heq =>
          rw [heq] at hep
          exact hep)
      h.m_settings.exploitationCount 0 hj (by omega) hsj
    split
    · next h2 heq =>
      rw [heq] at hinner
      exact ⟨by simp, hinner.2⟩
    · next status h2 _ heq =>
      rw [heq] at hinner
      exact hinner
  · exact ⟨by simp, hs⟩

theorem iteration_sized (learner : Learner L Sit Act Rew Par)
    (env : Environment E Sit Act Rew) (settings : ExperimentSettings) (fuel : Nat)
    (h : ExperimentHelper L E Sit Act Rew Par) (hs : h.Sized ∧ h.m_settings = settings) :
    (ExperimentHelper.iteration learner env fuel h).1 ≠ Status.outOfRange ∧
      (ExperimentHelper.iteration learner env fuel h).2.Sized ∧
      (ExperimentHelper.iteration learner env fuel h).2.m_settings = settings := by
  unfold ExperimentHelper.iteration
  have h1 := exploitationPhase_sized learner env settings fuel h hs
  split
  · next s1 heq =>
    rw [heq] at h1
    have h2 := explorationPhase_sized learner env settings fuel s1 h1.2
    split
    · next s2 heq2 =>
      rw [heq2] at h2
      exact ⟨by simp, h2.2⟩
    · next status s2 _ heq2 =>
      rw [heq2] at h2
      exact h2
  · next status s1 _ heq =>
    rw [heq] at h1
    exact h1

/-- C10: on a helper whose `seedCount` is at least 1, `constructEnvironments` returns, and
afterwards the exploration-environment list, the exploitation-environment list and the learner
list each have exactly `seedCount` elements; consequently `runIteration` never indexes one of
them out of range, whatever the number of repetitions and the step budget. -/
theorem ExperimentHelper.constructEnvironments_lengths (learner : Learner L Sit Act Rew Par)
    (env : Environment E Sit Act Rew) (make : Nat → E) (h : ExperimentHelper L E Sit Act Rew Par)
    (hseed : 1 ≤ h.m_settings.seedCount) :
    ∃ h1, ExperimentHelper.constructEnvironments learner env make h = some h1 ∧
      h1.m_settings.seedCount = h.m_settings.seedCount ∧
      h1.m_explorationEnvironments.length = h.m_settings.seedCount ∧
      h1.m_exploitationEnvironments.length = h.m_settings.seedCount ∧
      h1.m_experiments.length = h.m_settings.seedCount ∧
      ∀ fuel repeatCount : Nat,
        (ExperimentHelper.runIteration learner env fuel repeatCount h1).1 ≠ Status.outOfRange := by
  obtain ⟨h1, first, hc, hset, -, hsized, -⟩ :=
    constructEnvironments_sized learner env make h hseed
  have hs := hsized
  unfold ExperimentHelper.Sized at hs
  rw [hset] at hs
  refine ⟨h1, hc, by rw [hset], hs.2.1, hs.2.2, hs.1, ?_⟩
  intro fuel repeatCount
  unfold ExperimentHelper.runIteration
  exact (forLoop_inv
    (fun s : ExperimentHelper L E Sit Act Rew Par => s.Sized ∧ s.m_settings = h.m_settings) _
    repeatCount
    (fun _ s _ hss => iteration_sized learner env h.m_settings fuel s hss)
    repeatCount 0 h1 (by omega) ⟨hsized, hset⟩).1

/-- Witness for C10: the helper built from settings with one seed. -/
theorem ExperimentHelper.constructEnvironments_lengths_witness :
    1 ≤ settingsWithInputFile.seedCount ∧
    ∃ h1, ExperimentHelper.constructEnvironments recordingLearner twoStepEnvironment (fun _ => 0)
        (ExperimentHelper.new recordingLearner settingsWithInputFile ()) = some h1 ∧
      h1.m_settings.seedCount = 1 ∧
      h1.m_explorationEnvironments.length = 1 ∧
      h1.m_exploitationEnvironments.length = 1 ∧
      h1.m_experiments.length = 1 ∧
      ∀ fuel repeatCount : Nat,
        (ExperimentHelper.runIteration recordingLearner twoStepEnvironment fuel repeatCount h1).1
          ≠ Status.outOfRange :=
  ⟨by decide,
    ExperimentHelper.constructEnvironments_lengths recordingLearner twoStepEnvironment
      (fun _ => 0) (ExperimentHelper.new recordingLearner settingsWithInputFile ()) (by decide)⟩

theorem new_experiments_empty (learner : Learner L Sit Act Rew Par)
    (settings : ExperimentSettings) (constants : Par) :
    (ExperimentHelper.new learner settings constants :
        ExperimentHelper L E Sit Act Rew Par).m_experiments = [] ∧
      (ExperimentHelper.new learner settings constants :
        ExperimentHelper L E Sit Act Rew Par).calls = [] := by
  unfold ExperimentHelper.new
  constructor <;> simp

theorem constructEnvironments_after_new (learner : Learner L Sit Act Rew Par)
    (env : Environment E Sit Act Rew) (make : Nat → E) (settings : ExperimentSettings)
    (constants : Par) (hseed : 1 ≤ settings.seedCount) :
    ∃ h1 first, ExperimentHelper.constructEnvironments learner env make
        (ExperimentHelper.new learner settings constants) = some h1 ∧
      h1.calls = [] ∧
      h1.m_experiments
        = List.replicate settings.seedCount
            (learner.construct (env.availableActions first) constants) := by
  obtain ⟨h1, first, hc, -, hcalls, -, hexp⟩ :=
    constructEnvironments_sized learner env make
      (ExperimentHelper.new learner settings constants) hseed
  exact ⟨h1, first, hc, hcalls.trans (new_experiments_empty learner settings constants).2, hexp⟩

end HelperProperties

/-- C9, evaluated where it fails: with the input file name "population.csv" and one seed, the
constructor and `constructEnvironments` make no call at all, the single learner is the freshly
constructed one, and after a complete iteration the calls made on that learner are exactly the
two `exploit` and the two `explore`/`reward` pairs of the iteration: `loadPopulationCSV` has not
been invoked on it. -/
theorem ExperimentHelper.loadPopulationCSV_not_invoked_on_driven_learner :
    ∃ h1, ExperimentHelper.constructEnvironments recordingLearner twoStepEnvironment (fun _ => 0)
        (ExperimentHelper.new recordingLearner settingsWithInputFile ()) = some h1 ∧
      h1.calls = [] ∧ h1.m_experiments = [[]] ∧
      (ExperimentHelper.runIteration recordingLearner twoStepEnvironment 5 1 h1).1 = Status.ok ∧
      (ExperimentHelper.runIteration recordingLearner twoStepEnvironment 5 1 h1).2.m_experiments
        = [[Call.exploit () false 0, Call.exploit () false 0,
            Call.explore () 0, Call.reward 1000 false,
            Call.explore () 0, Call.reward 1000 true]] :=
  ⟨_, rfl, rfl, rfl, rfl, rfl⟩


/-! ## Properties of the learner -/

section LearnerProperties

variable {Cond Rnd : Type}

theorem numerosityOf_cons (c : Classifier Cond) (rest : List (Classifier Cond)) :
    numerosityOf (c :: rest) = c.numerosity + numerosityOf rest := by
  simp [numerosityOf]

theorem numerosityOf_nil : numerosityOf ([] : List (Classifier Cond)) = 0 := rfl

theorem numerosityOf_map (f : Classifier Cond → Classifier Cond)
    (hf : ∀ c, (f c).numerosity = c.numerosity) (population : List (Classifier Cond)) :
    numerosityOf (population.map f) = numerosityOf population := by
  induction population with
  | nil => rfl
  | cons c rest ih => simp only [List.map_cons, numerosityOf_cons, ih, hf]

theorem numerosityOf_filter_add (p : Classifier Cond → Bool)
    (population : List (Classifier Cond)) :
    numerosityOf (population.filter p) + numerosityOf (population.filter fun c => !p c)
      = numerosityOf population := by
  induction population with
  | nil => rfl
  | cons c rest ih =>
    cases hp : p c
    · simp only [List.filter_cons, hp, Bool.not_false, numerosityOf_cons]
      simp only [Bool.false_eq_true, if_false, if_true, numerosityOf_cons]
      omega
    · simp only [List.filter_cons, hp, Bool.not_true, numerosityOf_cons]
      simp only [Bool.false_eq_true, if_false, if_true, numerosityOf_cons]
      omega

theorem numerosityOf_addNumerosity (key amount : Nat) (population : List (Classifier Cond))
    (hmem : ∃ c ∈ population, c.key = key) :
    numerosityOf (addNumerosity key amount population) = numerosityOf population + amount := by
  induction population with
  | nil => simp at hmem
  | cons d rest ih =>
    unfold addNumerosity
    by_cases hd : d.key = key
    · simp only [hd, if_true, numerosityOf_cons]
      omega
    · simp only [hd, if_false, numerosityOf_cons]
      have : ∃ c ∈ rest, c.key = key := by
        obtain ⟨c, hc, hk⟩ := hmem
        rcases List.mem_cons.mp hc with rfl | hc
        · exact absurd hk hd
        · exact ⟨c, hc, hk⟩
      rw [ih this]
      omega

theorem removeMicroClassifier_measure (population : List (Classifier Cond)) (i : Nat)
    (hi : i < population.length) :
    numerosityOf (removeMicroClassifier population i) + (removeMicroClassifier population i).length
      < numerosityOf population + population.length := by
  induction population generalizing i with
  | nil => simp at hi
  | cons d rest ih =>
    cases i with
    | zero =>
      unfold removeMicroClassifier
      split
      · simp only [numerosityOf_cons, List.length_cons]; omega
      · simp only [numerosityOf_cons, List.length_cons]; omega
    | succ i =>
      unfold removeMicroClassifier
      have := ih i (by simpa using hi)
      simp only [numerosityOf_cons, List.length_cons]
      omega

theorem enforceCapLoop_le (engine : Engine Cond Rnd) (params : XCSRParams) (fuel : Nat)
    (state : List (Classifier Cond) × Rnd)
    (hfuel : numerosityOf state.1 + state.1.length ≤ fuel) :
    numerosityOf (enforceCapLoop engine params fuel state).1 ≤ params.n := by
  induction fuel generalizing state with
  | zero =>
    unfold enforceCapLoop
    omega
  | succ fuel ih =>
    unfold enforceCapLoop
    split
    · next hgt =>
      apply ih
      have hne : 0 < state.1.length := by
        rcases hs : state.1 with _ | ⟨d, rest⟩
        · rw [hs] at hgt; simp [numerosityOf] at hgt
        · simp
      have := removeMicroClassifier_measure state.1
        ((engine.roulette (state.1.map (deletionVote params
          ((state.1.map fun c => c.fitness).sum / numerosityOf state.1))) state.2).1
            % state.1.length) (Nat.mod_lt _ hne)
      unfold deleteOne
      simp only
      omega
    · next hle => omega

theorem enforceCap_le (engine : Engine Cond Rnd) (params : XCSRParams)
    (state : List (Classifier Cond) × Rnd) :
    numerosityOf (enforceCap engine params state).1 ≤ params.n :=
  enforceCapLoop_le engine params _ state (Nat.le_refl _)

theorem mostGeneral_mem (engine : Engine Cond Rnd) (classifiers : List (Classifier Cond))
    (c : Classifier Cond) (h : mostGeneral engine classifiers = some c) : c ∈ classifiers := by
  induction classifiers generalizing c with
  | nil => simp [mostGeneral] at h
  | cons d rest ih =>
    unfold mostGeneral at h
    split at h
    · simp only [Option.some.injEq] at h
      subst h
      exact List.mem_cons_self _ _
    · next e he =>
      split at h
      · simp only [Option.some.injEq] at h
        subst h
        exact List.mem_cons_of_mem _ (ih e he)
      · simp only [Option.some.injEq] at h
        subst h
        exact List.mem_cons_self _ _

theorem numerosityOf_actionSetSubsumption (engine : Engine Cond Rnd) (params : XCSRParams)
    (keys : List Nat) (population : List (Classifier Cond)) :
    numerosityOf (actionSetSubsumption engine params keys population)
      = numerosityOf population := by
  unfold actionSetSubsumption
  simp only
  split
  · rfl
  · next subsumer hsub =>
    have hmem := mostGeneral_mem engine _ subsumer hsub
    have hpop : subsumer ∈ population := by
      unfold membersOf at hmem
      exact List.mem_of_mem_filter (List.mem_of_mem_filter hmem)
    have hkept : subsumer ∈ population.filter fun c => !isAbsorbed engine keys subsumer c := by
      rw [List.mem_filter]
      exact ⟨hpop, by simp [isAbsorbed]⟩
    rw [numerosityOf_addNumerosity _ _ _ ⟨subsumer, hkept, rfl⟩]
    have := numerosityOf_filter_add (fun c => isAbsorbed engine keys subsumer c) population
    omega

theorem numerosityOf_updateSet (engine : Engine Cond Rnd) (params : XCSRParams)
    (keys : List Nat) (target : ℚ) (population : List (Classifier Cond)) :
    numerosityOf (updateSet engine params keys target population) = numerosityOf population := by
  unfold updateSet
  have h1 : ∀ (setSize : ℚ) (l : List (Classifier Cond)),
      numerosityOf (l.map fun c =>
        if keys.contains c.key then updateClassifier params target setSize c else c)
        = numerosityOf l := by
    intro setSize l
    apply numerosityOf_map
    intro c
    split <;> rfl
  have h2 : ∀ (accuracySum setSize : ℚ) (l : List (Classifier Cond)),
      numerosityOf (l.map fun c =>
        if keys.contains c.key then updateFitness engine params accuracySum setSize c else c)
        = numerosityOf l := by
    intro accuracySum setSize l
    apply numerosityOf_map
    intro c
    split <;> rfl
  simp only
  split
  · rw [numerosityOf_actionSetSubsumption, h2, h1]
  · rw [h2, h1]

theorem runGA_withinCap [DecidableEq Cond] (engine : Engine Cond Rnd) (params : XCSRParams)
    (keys : List Nat) (situation : List ℚ) (xcsr : XCSR Cond Rnd)
    (h : xcsr.WithinCap params) : (XCSR.runGA engine keys situation xcsr).WithinCap params := by
  obtain ⟨rfl, hle⟩ := h
  unfold XCSR.runGA
  simp only
  split
  · exact ⟨rfl, enforceCap_le engine xcsr.m_params _⟩
  · exact ⟨rfl, hle⟩

theorem possiblyGA_withinCap [DecidableEq Cond] (engine : Engine Cond Rnd) (params : XCSRParams)
    (keys : List Nat) (situation : List ℚ) (xcsr : XCSR Cond Rnd)
    (h : xcsr.WithinCap params) :
    (XCSR.possiblyGA engine keys situation xcsr).WithinCap params := by
  unfold XCSR.possiblyGA
  simp only
  split
  · apply runGA_withinCap
    refine ⟨h.1, ?_⟩
    have hmap : numerosityOf (xcsr.m_population.map fun c =>
        if keys.contains c.key then { c with timeStamp := xcsr.m_timeStamp } else c)
        = numerosityOf xcsr.m_population := by
      apply numerosityOf_map
      intro c
      split <;> rfl
    show numerosityOf _ ≤ params.n
    rw [hmap]
    exact h.2
  · exact h

theorem cover_withinCap [DecidableEq Cond] (engine : Engine Cond Rnd) (params : XCSRParams)
    (situation : List ℚ) (fuel : Nat) (xcsr : XCSR Cond Rnd) (h : xcsr.WithinCap params) :
    (XCSR.cover engine situation fuel xcsr).2.WithinCap params := by
  induction fuel generalizing xcsr with
  | zero => exact h
  | succ fuel ih =>
    obtain ⟨rfl, hcap⟩ := h
    unfold XCSR.cover
    simp only
    split
    · apply ih
      refine ⟨rfl, ?_⟩
      show numerosityOf _ ≤ xcsr.m_params.n
      split
      · exact enforceCap_le engine xcsr.m_params _
      · next hle => exact Nat.le_of_not_lt hle
    · exact ⟨rfl, hcap⟩

theorem select_withinCap [DecidableEq Cond] (engine : Engine Cond Rnd) (params : XCSRParams)
    (exploring update : Bool) (fuel : Nat) (xcsr : XCSR Cond Rnd) (situation : List ℚ)
    (h : xcsr.WithinCap params) :
    (XCSR.select engine exploring update fuel xcsr situation).2.WithinCap params := by
  have hc := cover_withinCap engine params situation fuel
    { xcsr with m_isCoveringPerformed := false } h
  unfold XCSR.select
  simp only
  split
  · exact hc
  · split
    · exact hc
    · split
      · exact hc
      · exact hc

theorem reward_withinCap [DecidableEq Cond] (engine : Engine Cond Rnd) (params : XCSRParams)
    (xcsr : XCSR Cond Rnd) (value : ℚ) (isEndOfProblem : Bool) (h : xcsr.WithinCap params) :
    (XCSR.reward engine xcsr value isEndOfProblem).2.WithinCap params := by
  unfold XCSR.reward
  split
  · exact h
  · have hcredited : ∀ (target : ℚ),
        (if (!xcsr.m_prevActionSet.isEmpty) = true then
          { xcsr with
            m_population :=
              updateSet engine xcsr.m_params xcsr.m_prevActionSet target xcsr.m_population }
        else xcsr).WithinCap params := by
      intro target
      split
      · refine ⟨h.1, ?_⟩
        show numerosityOf _ ≤ params.n
        rw [numerosityOf_updateSet]
        exact h.2
      · exact h
    simp only
    have hcr := hcredited
      (xcsr.m_prevReward + xcsr.m_params.gamma * maxPrediction xcsr.m_predictions)
    generalize (if (!xcsr.m_prevActionSet.isEmpty) = true then
          { xcsr with
            m_population :=
              updateSet engine xcsr.m_params xcsr.m_prevActionSet
                (xcsr.m_prevReward + xcsr.m_params.gamma * maxPrediction xcsr.m_predictions)
                xcsr.m_population }
        else xcsr) = credited at hcr ⊢
    cases isEndOfProblem with
    | true =>
      simp only [if_true]
      have hup : ({ credited with
          m_population :=
            updateSet engine credited.m_params credited.m_actionSet value
              credited.m_population } : XCSR Cond Rnd).WithinCap params := by
        refine ⟨hcr.1, ?_⟩
        show numerosityOf _ ≤ params.n
        rw [numerosityOf_updateSet]
        exact hcr.2
      exact possiblyGA_withinCap engine params _ _ _ hup
    | false =>
      simp only [Bool.false_eq_true, if_false]
      split
      · exact possiblyGA_withinCap engine params _ _ _ hcr
      · exact hcr

theorem call_withinCap [DecidableEq Cond] (engine : Engine Cond Rnd) (params : XCSRParams)
    (fuel : Nat) (xcsr : XCSR Cond Rnd) (request : Request) (h : xcsr.WithinCap params) :
    (XCSR.call engine fuel xcsr request).WithinCap params := by
  cases request with
  | explore situation => exact select_withinCap engine params true true fuel xcsr situation h
  | exploit situation update =>
    exact select_withinCap engine params false update fuel xcsr situation h
  | reward value isEndOfProblem => exact reward_withinCap engine params xcsr value isEndOfProblem h

theorem calls_withinCap [DecidableEq Cond] (engine : Engine Cond Rnd) (params : XCSRParams)
    (fuel : Nat) (requests : List Request) (xcsr : XCSR Cond Rnd) (h : xcsr.WithinCap params) :
    (XCSR.calls engine fuel xcsr requests).WithinCap params := by
  induction requests generalizing xcsr with
  | nil => exact h
  | cons request rest ih => exact ih _ (call_withinCap engine params fuel xcsr request h)

theorem cover_expectsReward [DecidableEq Cond] (engine : Engine Cond Rnd) (situation : List ℚ)
    (fuel : Nat) (xcsr : XCSR Cond Rnd) :
    (XCSR.cover engine situation fuel xcsr).2.m_expectsReward = xcsr.m_expectsReward := by
  induction fuel generalizing xcsr with
  | zero => rfl
  | succ fuel ih =>
    unfold XCSR.cover
    simp only
    split
    · rw [ih]
    · rfl

theorem exploit_without_update_expectsReward [DecidableEq Cond] (engine : Engine Cond Rnd)
    (fuel : Nat) (xcsr : XCSR Cond Rnd) (situation : List ℚ) :
    (XCSR.exploit engine fuel xcsr situation false).2.m_expectsReward = xcsr.m_expectsReward := by
  have hc := cover_expectsReward engine situation fuel { xcsr with m_isCoveringPerformed := false }
  unfold XCSR.exploit XCSR.select
  simp only
  split
  · exact hc
  · split
    · exact hc
    · simp only [Bool.false_eq_true, if_false]
      exact hc

theorem reward_expectsReward [DecidableEq Cond] (engine : Engine Cond Rnd)
    (xcsr : XCSR Cond Rnd) (value : ℚ) (isEndOfProblem : Bool) :
    (XCSR.reward engine xcsr value isEndOfProblem).2.m_expectsReward = false := by
  unfold XCSR.reward
  split
  · next h => exact h
  · rfl

theorem exploits_without_update_expectsReward [DecidableEq Cond] (engine : Engine Cond Rnd)
    (fuel : Nat) (situations : List (List ℚ)) (xcsr : XCSR Cond Rnd) :
    (XCSR.calls engine fuel xcsr
        (situations.map fun s => Request.exploit s false)).m_expectsReward
      = xcsr.m_expectsReward := by
  induction situations generalizing xcsr with
  | nil => rfl
  | cons s rest ih =>
    simp only [List.map_cons, XCSR.calls, XCSR.call]
    rw [ih, exploit_without_update_expectsReward]

theorem reward_misuse [DecidableEq Cond] (engine : Engine Cond Rnd) (xcsr : XCSR Cond Rnd)
    (value : ℚ) (isEndOfProblem : Bool) (h : xcsr.m_expectsReward = false) :
    XCSR.reward engine xcsr value isEndOfProblem
      = (Except.error XCSRError.protocolMisuse, xcsr) := by
  unfold XCSR.reward
  rw [if_pos h]

/-- C2: for a learner whose population starts with a numerosity sum of at most `N`, the parameter
`n`, the numerosity sum is at most `N` in the state left by `explore`, by `exploit` and by
`reward`, and therefore after every call of any sequence of such calls; the parameters are not
changed by these calls. -/
theorem XCSR.numerositySum_le_n_after_every_call [DecidableEq Cond] (engine : Engine Cond Rnd)
    (fuel : Nat) (xcsr : XCSR Cond Rnd) (hstart : xcsr.numerositySum ≤ xcsr.m_params.n) :
    (∀ situation, (XCSR.explore engine fuel xcsr situation).2.numerositySum ≤ xcsr.m_params.n) ∧
    (∀ situation update,
      (XCSR.exploit engine fuel xcsr situation update).2.numerositySum ≤ xcsr.m_params.n) ∧
    (∀ value isEndOfProblem,
      (XCSR.reward engine xcsr value isEndOfProblem).2.numerositySum ≤ xcsr.m_params.n) ∧
    ∀ requests : List Request,
      (XCSR.calls engine fuel xcsr requests).numerositySum ≤ xcsr.m_params.n ∧
        (XCSR.calls engine fuel xcsr requests).m_params = xcsr.m_params := by
  have h : xcsr.WithinCap xcsr.m_params := ⟨rfl, hstart⟩
  refine ⟨fun situation => ?_, fun situation update => ?_, fun value isEndOfProblem => ?_,
    fun requests => ?_⟩
  · exact (select_withinCap engine _ true true fuel xcsr situation h).2
  · exact (select_withinCap engine _ false update fuel xcsr situation h).2
  · exact (reward_withinCap engine _ xcsr value isEndOfProblem h).2
  · have := calls_withinCap engine _ fuel requests xcsr h
    exact ⟨this.2, this.1⟩

/-- Witness for C2: the idle learner with an empty population and the default cap. -/
theorem XCSR.numerositySum_le_n_after_every_call_witness :
    idleLearner.numerositySum ≤ idleLearner.m_params.n ∧
    (∀ situation,
      (XCSR.explore counterEngine 8 idleLearner situation).2.numerositySum
        ≤ idleLearner.m_params.n) ∧
    (∀ situation update,
      (XCSR.exploit counterEngine 8 idleLearner situation update).2.numerositySum
        ≤ idleLearner.m_params.n) ∧
    (∀ value isEndOfProblem,
      (XCSR.reward counterEngine idleLearner value isEndOfProblem).2.numerositySum
        ≤ idleLearner.m_params.n) ∧
    ∀ requests : List Request,
      (XCSR.calls counterEngine 8 idleLearner requests).numerositySum ≤ idleLearner.m_params.n ∧
        (XCSR.calls counterEngine 8 idleLearner requests).m_params = idleLearner.m_params :=
  ⟨by decide,
    XCSR.numerositySum_le_n_after_every_call counterEngine 8 idleLearner (by decide)⟩

/-- A run on the idle learner with the counter engine: `explore` returns action 0 after covering
both actions, the following `reward` returns, and a second `reward` right after it does not. -/
theorem explore_then_reward_returns :
    (XCSR.explore counterEngine 8 idleLearner []).1.toOption = some 0 ∧
      (XCSR.explore counterEngine 8 idleLearner []).2.numerositySum = 2 ∧
      (XCSR.explore counterEngine 8 idleLearner []).2.m_expectsReward = true ∧
      (XCSR.reward counterEngine
        (XCSR.explore counterEngine 8 idleLearner []).2 1000 true).1.toOption = some () ∧
      (XCSR.reward counterEngine
        (XCSR.reward counterEngine
          (XCSR.explore counterEngine 8 idleLearner []).2 1000 true).2 1000 true).1.toOption
        = none := by
  decide

/-- C3: when `reward` is called on a learner with no action selection pending, also after any
number of calls of `exploit` without update, the misuse is reported to the caller and the state
of the learner (population, action sets, time stamp, previous reward and situation, and every
other member) is exactly the state before the call. No selection is pending after any call of
`reward`, so that the second of two calls in a row is such a misuse, nor on a newly constructed
learner. -/
theorem XCSR.reward_without_pending_selection [DecidableEq Cond] (engine : Engine Cond Rnd)
    (fuel : Nat) (xcsr : XCSR Cond Rnd) (hidle : xcsr.m_expectsReward = false)
    (situations : List (List ℚ)) (value : ℚ) (isEndOfProblem : Bool) :
    XCSR.reward engine
        (XCSR.calls engine fuel xcsr (situations.map fun s => Request.exploit s false))
        value isEndOfProblem
      = (Except.error XCSRError.protocolMisuse,
          XCSR.calls engine fuel xcsr (situations.map fun s => Request.exploit s false)) ∧
    (∀ (before : XCSR Cond Rnd) (value1 value2 : ℚ) (isEnd1 isEnd2 : Bool),
      (XCSR.reward engine before value1 isEnd1).2.m_expectsReward = false ∧
      XCSR.reward engine (XCSR.reward engine before value1 isEnd1).2 value2 isEnd2
        = (Except.error XCSRError.protocolMisuse,
            (XCSR.reward engine before value1 isEnd1).2)) ∧
    (∀ (availableActions : List Int) (params : XCSRParams) (seed : Rnd)
        (created : XCSR Cond Rnd),
      XCSR.new availableActions params seed = Except.ok created →
        created.m_expectsReward = false) := by
  refine ⟨?_, ?_, ?_⟩
  · apply reward_misuse
    rw [exploits_without_update_expectsReward, hidle]
  · intro before value1 value2 isEnd1 isEnd2
    exact ⟨reward_expectsReward engine before value1 isEnd1,
      reward_misuse engine _ value2 isEnd2 (reward_expectsReward engine before value1 isEnd1)⟩
  · intro availableActions params seed created hnew
    unfold XCSR.new at hnew
    split at hnew
    · simp at hnew
    · simp only [Except.ok.injEq] at hnew
      rw [← hnew]

/-- Witness for C3: the idle learner, after one call of `exploit` without update. -/
theorem XCSR.reward_without_pending_selection_witness :
    idleLearner.m_expectsReward = false ∧
    XCSR.reward counterEngine
        (XCSR.calls counterEngine 8 idleLearner
          ([[3 / 10]].map fun s => Request.exploit s false))
        1000 true
      = (Except.error XCSRError.protocolMisuse,
          XCSR.calls counterEngine 8 idleLearner
            ([[3 / 10]].map fun s => Request.exploit s false)) ∧
    (∀ (before : XCSR Unit Nat) (value1 value2 : ℚ) (isEnd1 isEnd2 : Bool),
      (XCSR.reward counterEngine before value1 isEnd1).2.m_expectsReward = false ∧
      XCSR.reward counterEngine (XCSR.reward counterEngine before value1 isEnd1).2 value2 isEnd2
        = (Except.error XCSRError.protocolMisuse,
            (XCSR.reward counterEngine before value1 isEnd1).2)) ∧
    (∀ (availableActions : List Int) (params : XCSRParams) (seed : Nat)
        (created : XCSR Unit Nat),
      XCSR.new availableActions params seed = Except.ok created →
        created.m_expectsReward = false) :=
  ⟨rfl, XCSR.reward_without_pending_selection counterEngine 8 idleLearner rfl [[3 / 10]] 1000 true⟩

end LearnerProperties

/-- C4: after `ExperimentHelper::switchToCondensationMode`, the learners held by the helper are
the learners it held before with `switchToCondensationMode` applied to each of them, so that for
each of them the crossover probability `chi` is 0 and the mutation probability `mu` is 0. -/
theorem ExperimentHelper.switchToCondensationMode_sets_chi_mu {Cond Rnd E Sit Act Rew Par : Type}
    (learner : Learner (XCSR Cond Rnd) Sit Act Rew Par)
    (hswitch : learner.switchToCondensationMode = XCSR.switchToCondensationMode)
    (h : ExperimentHelper (XCSR Cond Rnd) E Sit Act Rew Par) :
    (h.switchToCondensationMode learner).m_experiments
        = h.m_experiments.map XCSR.switchToCondensationMode ∧
      (h.switchToCondensationMode learner).m_experiments.length = h.m_experiments.length ∧
      ∀ xcsr ∈ (h.switchToCondensationMode learner).m_experiments,
        xcsr.m_params.chi = 0 ∧ xcsr.m_params.mu = 0 := by
  have hmap : (h.switchToCondensationMode learner).m_experiments
      = h.m_experiments.map XCSR.switchToCondensationMode := by
    unfold ExperimentHelper.switchToCondensationMode
    rw [hswitch]
  refine ⟨hmap, by rw [hmap, List.length_map], ?_⟩
  intro xcsr hmem
  rw [hmap, List.mem_map] at hmem
  obtain ⟨before, -, rfl⟩ := hmem
  exact ⟨rfl, rfl⟩

/-- Witness for C4: a helper holding two learners with the default parameters. -/
theorem ExperimentHelper.switchToCondensationMode_sets_chi_mu_witness :
    condensationOnlyLearner.switchToCondensationMode = XCSR.switchToCondensationMode ∧
    (({ (ExperimentHelper.new condensationOnlyLearner settingsWithInputFile () :
            ExperimentHelper (XCSR Unit Nat) Nat Unit Int ℚ Unit) with
          m_experiments := [idleLearner, idleLearner] }).switchToCondensationMode
        condensationOnlyLearner).m_experiments
        = [idleLearner, idleLearner].map XCSR.switchToCondensationMode ∧
      (({ (ExperimentHelper.new condensationOnlyLearner settingsWithInputFile () :
            ExperimentHelper (XCSR Unit Nat) Nat Unit Int ℚ Unit) with
          m_experiments := [idleLearner, idleLearner] }).switchToCondensationMode
        condensationOnlyLearner).m_experiments.length = 2 ∧
      ∀ xcsr ∈ (({ (ExperimentHelper.new condensationOnlyLearner settingsWithInputFile () :
            ExperimentHelper (XCSR Unit Nat) Nat Unit Int ℚ Unit) with
          m_experiments := [idleLearner, idleLearner] }).switchToCondensationMode
        condensationOnlyLearner).m_experiments,
        xcsr.m_params.chi = 0 ∧ xcsr.m_params.mu = 0 :=
  ⟨rfl,
    ExperimentHelper.switchToCondensationMode_sets_chi_mu condensationOnlyLearner rfl
      { (ExperimentHelper.new condensationOnlyLearner settingsWithInputFile () :
          ExperimentHelper (XCSR Unit Nat) Nat Unit Int ℚ Unit) with
        m_experiments := [idleLearner, idleLearner] }⟩


end xcspp
